import Mathlib

/-!
# Verification of the WranglesPY wrangle-dispatch and column-projection core

Shallow embedding of `wrangles/utils.py`, `wrangles/recipe_wrangles/extract.py`
and `wrangles/recipe_wrangles/split.py`.

Python dictionaries are modelled as ordered association lists
(`List (String × α)`) with Python's insertion-order semantics:
`d[k] = v` updates the value in place if the key exists (keeping its
position) and appends otherwise; `{**a, **b}` lists `a`'s keys first
(with `b`'s values winning on collision) followed by `b`'s remaining
keys.  Python strings are Lean `String`s; character-level operations
are implemented on `List Char` so that they reduce by `decide`/`rfl`.
-/

namespace Wrangles

/-- Python exception classes raised by the modelled code. -/
inductive PyErr where
  | valueError (msg : String)
  | keyError (msg : String)
  | indexError
deriving DecidableEq, Repr

instance {ε α : Type} [DecidableEq ε] [DecidableEq α] :
    DecidableEq (Except ε α) := fun a b =>
  match a, b with
  | .ok x, .ok y =>
    if h : x = y then isTrue (by rw [h])
    else isFalse (fun hh => h (Except.ok.inj hh))
  | .error x, .error y =>
    if h : x = y then isTrue (by rw [h])
    else isFalse (fun hh => h (Except.error.inj hh))
  | .ok _, .error _ => isFalse (fun hh => Except.noConfusion hh)
  | .error _, .ok _ => isFalse (fun hh => Except.noConfusion hh)

/-! ## Python dict primitives -/

/-- `d[k]` lookup: first entry with the given key (keys of a real Python
dict are unique, so first = only). -/
def pyGet {α : Type} (d : List (String × α)) (k : String) : Option α :=
  match d with
  | [] => none
  | (k', v) :: rest => if k' = k then some v else pyGet rest k

/-- `k in d`. -/
def pyHasKey {α : Type} (d : List (String × α)) (k : String) : Bool :=
  (pyGet d k).isSome

/-- `d[k] = v`: update in place (keeping position) when the key exists,
append otherwise. -/
def pySet {α : Type} (d : List (String × α)) (k : String) (v : α) :
    List (String × α) :=
  if pyHasKey d k then
    d.map (fun kv => if kv.1 = k then (k, v) else kv)
  else
    d ++ [(k, v)]

/-- `{**a, **b}`: `a`'s keys in order with `b`'s values overriding on
collision, then `b`'s keys not present in `a`, in `b`'s order. -/
def pyMergeDicts {α : Type} (a b : List (String × α)) : List (String × α) :=
  a.map (fun kv => (kv.1, (pyGet b kv.1).getD kv.2)) ++
    b.filter (fun kv => !pyHasKey a kv.1)

/-! ## `utils.add_special_parameters` (utils.py lines 134-175)

The Python callable `fn` is represented by the list of its declared
formal parameter names (`inspect.getfullargspec(fn).args`); the values
of `functions`, `variables`, `error` and `common_params` are cells of an
arbitrary type `α`.  `error` is `Option α`: Python's `if error` is
truthy exactly when an exception object is present. -/

/-- The shape `if (<key> not in params and <key> in argspec):
params[<key>] = <value>` shared by the three special-parameter
injections of `add_special_parameters`. -/
def injectIfAbsent {α : Type} (d : List (String × α)) (argspec : List String)
    (key : String) (value : α) : List (String × α) :=
  if ¬ pyHasKey d key ∧ key ∈ argspec then pySet d key value else d

/-- Model of `add_special_parameters(params, fn, functions, variables,
error, common_params)`.  The callable `fn` is represented by `argspec`,
the list of its declared formal parameter names; the binder for the
Python argument `variables` is spelled `variables'` because `variables`
is a Lean keyword. -/
def add_special_parameters {α : Type} (params : List (String × α))
    (argspec : List String) (functions variables' : α) (error : Option α)
    (common_params : List (String × α)) : List (String × α) :=
  let p1 := injectIfAbsent params argspec "functions" functions
  let p2 := injectIfAbsent p1 argspec "variables" variables'
  let p3 :=
    match error with
    | some e => injectIfAbsent p2 argspec "error" e
    | none => p2
  if common_params.isEmpty then p3
  else pyMergeDicts p3 (common_params.filter (fun kv => kv.1 ∈ argspec))

/-! ## Character-level Python string helpers

All operations work on `List Char` (with `String` wrappers) so that
concrete instances reduce by `rfl`/`decide`. -/

/-- ASCII `str.lower` (only the `REGEX:`-prefix check needs it). -/
def pyCharLower (c : Char) : Char :=
  if 'A' ≤ c ∧ c ≤ 'Z' then Char.ofNat (c.toNat + 32) else c

/-- Whitespace removed by Python `str.strip()` (ASCII). -/
def isPyWs (c : Char) : Bool :=
  c = ' ' ∨ c = '\t' ∨ c = '\n' ∨ c = '\r' ∨ c = '\x0b' ∨ c = '\x0c'

def pyStripChars (cs : List Char) : List Char :=
  ((cs.dropWhile isPyWs).reverse.dropWhile isPyWs).reverse

/-- Truthiness of `_re.search(r'[^\\]?\*', s)`: since the optional
`[^\\]` can match the empty string immediately before any `*`, the
search succeeds iff `s` contains a `*` at all (escaped or not). -/
def containsStar (s : String) : Bool := s.data.contains '*'

/-- `s.lower().startswith('regex:')`. -/
def isRegexPrefixed (s : String) : Bool :=
  List.isPrefixOf "regex:".data (s.data.map pyCharLower)

/-- `_re.sub(r'(?<!\\)\*', repl, ·)` over characters: replace every `*`
whose immediately preceding character of the original string is not a
backslash.  `prev` is that preceding character (`none` at the start). -/
def subStarsAux (repl : List Char) (prev : Option Char) :
    List Char → List Char
  | [] => []
  | c :: cs =>
    if c = '*' ∧ prev ≠ some '\\' then repl ++ subStarsAux repl (some c) cs
    else c :: subStarsAux repl (some c) cs

/-- The replacement text `\g<n>` produced by the `replacer` closure. -/
def groupRef (n : Nat) : List Char :=
  '\\' :: 'g' :: '<' :: (Nat.toDigits 10 n ++ ['>'])

/-- `_re.sub(r'(?<!\\)\*', replacer, ·)` for the rename value: each
unescaped `*` becomes `\g<n>` with `n` auto-incrementing from 1 in
first-seen order. -/
def subStarsValAux (n : Nat) (prev : Option Char) : List Char → List Char
  | [] => []
  | c :: cs =>
    if c = '*' ∧ prev ≠ some '\\' then
      groupRef n ++ subStarsValAux (n + 1) (some c) cs
    else c :: subStarsValAux n (some c) cs

/-- Lines 20-39 of `wildcard_expansion_dict`: a key containing `*` that
is not `regex:`-prefixed becomes `'regex:' + sub(r'(?<!\\)\*', '(.*)',
k)` and its rename value gets incrementing `\g<n>` backreferences. -/
def desugarPair (kv : String × String) : String × String :=
  if containsStar kv.1 ∧ ¬ isRegexPrefixed kv.1 then
    (⟨"regex:".data ++ subStarsAux "(.*)".data none kv.1.data⟩,
      ⟨subStarsValAux 1 none kv.2.data⟩)
  else kv

/-- The same key conversion as used by `wildcard_expansion`
(utils.py lines 188-191), which has no rename value. -/
def desugarKey (s : String) : String :=
  if containsStar s ∧ ¬ isRegexPrefixed s then
    ⟨"regex:".data ++ subStarsAux "(.*)".data none s.data⟩
  else s

/-- Independent characterization of `subStarsAux`: split the string at
the unescaped stars. -/
def splitStarsAux (prev : Option Char) : List Char → List (List Char)
  | [] => [[]]
  | c :: cs =>
    if c = '*' ∧ prev ≠ some '\\' then [] :: splitStarsAux (some c) cs
    else
      match splitStarsAux (some c) cs with
      | [] => [[c]]
      | s :: rest => (c :: s) :: rest

/-- Join segments with a constant separator. -/
def joinWith (sep : List Char) : List (List Char) → List Char
  | [] => []
  | [x] => x
  | x :: y :: rest => x ++ sep ++ joinWith sep (y :: rest)

/-- Join segments with `\g<n>` separators counting up from `n`. -/
def joinWithRefs (n : Nat) : List (List Char) → List Char
  | [] => []
  | [x] => x
  | x :: y :: rest => x ++ groupRef n ++ joinWithRefs (n + 1) (y :: rest)

/-- Does the string contain a `*` not preceded by a backslash? -/
def hasUnescapedStarAux (prev : Option Char) : List Char → Bool
  | [] => false
  | c :: cs =>
    (c = '*' ∧ prev ≠ some '\\') ∨ hasUnescapedStarAux (some c) cs

def hasUnescapedStar (s : String) : Bool := hasUnescapedStarAux none s.data

/-! ## Regex semantics for desugared wildcard patterns

The patterns reaching `_re.compile(...).fullmatch` from a wildcard key
have the shape `lit₀(.*)lit₁(.*)…litₙ`.  We model exactly this class:
the pattern string is split on its `(.*)` occurrences into literal
segments (all other characters are taken literally), and matching is
greedy, as in Python: each `(.*)` captures the longest span that still
lets the rest of the pattern match to the end of the string. -/

/-- Split a desugared pattern at its `(.*)` capture groups. -/
def splitOnGroup : List Char → List (List Char)
  | [] => [[]]
  | '(' :: '.' :: '*' :: ')' :: cs => [] :: splitOnGroup cs
  | c :: cs =>
    match splitOnGroup cs with
    | [] => [[c]]
    | s :: rest => (c :: s) :: rest

/-- Greedy search for the split point of one `(.*)` group: try the
longest capture (`t.take k`) first, as Python's greedy `(.*)` does. -/
def greedyStar (f : List Char → Option (List (List Char)))
    (t : List Char) : Nat → Option (List (List Char))
  | 0 => (f t).map (fun caps => ([] : List Char) :: caps)
  | k + 1 =>
    match f (t.drop (k + 1)) with
    | some caps => some (t.take (k + 1) :: caps)
    | none => greedyStar f t k

/-- `fullmatch` of `segs₀(.*)segs₁(.*)…` against a string, returning
the list of captured groups. -/
def matchSegs : List (List Char) → List Char → Option (List (List Char))
  | [], _ => none
  | [l], s => if s = l then some [] else none
  | l :: l2 :: rest, s =>
    if l.isPrefixOf s then
      greedyStar (fun u => matchSegs (l2 :: rest) u)
        (s.drop l.length) (s.length - l.length)
    else none

def digitsToNat (ds : List Char) : Nat :=
  ds.foldl (fun n c => n * 10 + (c.toNat - '0'.toNat)) 0

/-- Instantiate a `re.sub` replacement template: `\g<n>` is replaced by
capture group `n` (`\g<0>` is the whole match); an out-of-range or
empty group reference is `none` (Python raises `re.error`, which the
caller converts to `ValueError`); other characters, including unknown
escapes, are kept as-is.  `fuel` only bounds recursion and is set to
the template length. -/
def renderT (whole : List Char) (caps : List (List Char)) :
    Nat → List Char → Option (List Char)
  | _, [] => some []
  | 0, _ :: _ => none
  | f + 1, '\\' :: 'g' :: '<' :: cs =>
    match cs.span Char.isDigit with
    | ([], _) => none
    | (ds, rest1) =>
      match rest1 with
      | '>' :: rest2 =>
        match digitsToNat ds with
        | 0 => (renderT whole caps f rest2).map (fun r => whole ++ r)
        | m + 1 =>
          match caps.get? m with
          | some g => (renderT whole caps f rest2).map (fun r => g ++ r)
          | none => none
      | _ => none
  | f + 1, c :: cs => (renderT whole caps f cs).map (fun r => c :: r)

def renderTemplate (whole : List Char) (caps : List (List Char))
    (t : List Char) : Option (List Char) :=
  renderT whole caps t.length t

/-- `dict.fromkeys(...)` de-duplication, keeping first occurrences. -/
def pyDedupAux (seen : List String) : List String → List String
  | [] => []
  | x :: xs =>
    if x ∈ seen then pyDedupAux seen xs
    else x :: pyDedupAux (x :: seen) xs

/-! ## `utils.wildcard_expansion_dict` (utils.py lines 8-89) -/

/-- The regex branch of the second loop (lines 48-74): columns fully
matching the pattern (de-duplicated, in table order) paired with their
renamed targets.  When key and value are the identical string the
original names are kept (line 54-56); otherwise the rename template is
instantiated with the greedy captures — for a fullmatching column,
`re.sub(pattern, template, col, count=1)` rewrites the entire string. -/
def matchedPairsE (cols : List String) (P T : String) :
    Except PyErr (List (String × String)) :=
  let segs := splitOnGroup (pyStripChars (P.data.drop 6))
  let matching :=
    pyDedupAux [] (cols.filter (fun c => (matchSegs segs c.data).isSome))
  do
    let renamed ← matching.mapM (fun c =>
      if P = T then pure c
      else
        match matchSegs segs c.data with
        | some caps =>
          match renderTemplate c.data caps T.data with
          | some r => pure (⟨r⟩ : String)
          | none => Except.error (PyErr.valueError
              s!"Invalid regex pattern: {T}. Are you missing a capture group?")
        | none => pure c)
    pure (matching.zip renamed)

/-- Lines 83-87 of `wildcard_expansion_dict` after the optional-marker
handling: `column` is the (possibly `?`-stripped) key.  The rename
target is looked up in the whole desugared dict `sel` again (line 84,
`selected_columns[column]`), which raises a bare `KeyError(name)` when
the stripped name is a real column but not a spec key. -/
def processLiteral (sel : List (String × String)) (cols : List String)
    (acc : List (String × String)) (column : String) (optionalCol : Bool) :
    Except PyErr (List (String × String)) :=
  if column ∈ cols then
    match pyGet sel column with
    | some v => pure (pySet acc column v)
    | none => Except.error (PyErr.keyError column)
  else if optionalCol then pure acc
  else Except.error (PyErr.keyError s!"Column {column} does not exist")

/-- One iteration of the second loop of `wildcard_expansion_dict`
(lines 47-87).  The literal branch checks `column[-1] == "?"`
(`IndexError` on an empty key) and strips the marker only when the
full name is absent from `all_columns`. -/
def processEntry (cols : List String) (sel : List (String × String))
    (acc : List (String × String)) (kv : String × String) :
    Except PyErr (List (String × String)) :=
  if isRegexPrefixed kv.1 then do
    let ps ← matchedPairsE cols kv.1 kv.2
    pure (pyMergeDicts ps acc)
  else if kv.1.data = [] then Except.error PyErr.indexError
  else if kv.1.data.getLast? = some '?' ∧ ¬ (kv.1 ∈ cols) then
    processLiteral sel cols acc ⟨kv.1.data.dropLast⟩ true
  else processLiteral sel cols acc kv.1 false

/-- The first loop (lines 19-41): build the desugared dict with Python
dict-assignment semantics. -/
def desugaredSel (selected : List (String × String)) :
    List (String × String) :=
  selected.foldl (fun d kv =>
    let p := desugarPair kv
    pySet d p.1 p.2) []

/-- Model of `wildcard_expansion_dict(all_columns, selected_columns)`. -/
def wildcard_expansion_dict (cols : List String)
    (selected : List (String × String)) :
    Except PyErr (List (String × String)) :=
  let sel := desugaredSel selected
  sel.foldlM (fun acc kv => processEntry cols sel acc kv) []

/-! ## `utils.wildcard_expansion` (utils.py lines 178-218) -/

/-- `result_columns` update for one key: Python dict keys keep their
first-insertion position; new keys are appended. -/
def addKey (acc : List String) (k : String) : List String :=
  if k ∈ acc then acc else acc ++ [k]

/-- The literal branch of `wildcard_expansion` (lines 203-215):
`result_columns[column] = None`, i.e. just record the key. -/
def expansionLiteral (cols : List String) (acc : List String)
    (column : String) (optionalCol : Bool) : Except PyErr (List String) :=
  if column ∈ cols then pure (addKey acc column)
  else if optionalCol then pure acc
  else Except.error (PyErr.keyError s!"Column {column} does not exist")

/-- Model of `wildcard_expansion(all_columns, selected_columns)` after
the scalar-to-list coercion of its argument. -/
def wildcard_expansion (cols : List String) (selected : List String) :
    Except PyErr (List String) :=
  let sel := selected.map desugarKey
  sel.foldlM (fun acc column =>
    if isRegexPrefixed column then
      pure ((cols.filter (fun c =>
        (matchSegs (splitOnGroup (pyStripChars (column.data.drop 6)))
          c.data).isSome)).foldl addKey acc)
    else if column.data = [] then Except.error PyErr.indexError
    else if column.data.getLast? = some '?' ∧ ¬ (column ∈ cols) then
      expansionLiteral cols acc ⟨column.data.dropLast⟩ true
    else expansionLiteral cols acc column false) []

/-! ## C4: result ordering of `wildcard_expansion_dict` -/

/-- The matched pairs of one regex entry, defaulting to `[]` on the
(invalid-rename) error case. -/
def matchedPairsD (cols : List String) (P T : String) :
    List (String × String) :=
  ((matchedPairsE cols P T).toOption).getD []

/-- The result keys contributed by one desugared spec entry. -/
def entryKeys (cols : List String) (kv : String × String) : List String :=
  if isRegexPrefixed kv.1 then (matchedPairsD cols kv.1 kv.2).map Prod.fst
  else [kv.1]

/-! ## `utils.get_nested_function` (utils.py lines 92-131)

A Python namespace node is either a dict (`isinstance(obj, dict)`
branch: key lookup), a module/object (`hasattr`/`getattr` branch), a
plain callable (no interesting attributes — a missing segment there
fails like any other), or `None` (an unset root). -/

inductive PyObj where
  | pydict (entries : List (String × PyObj))
  | attrObj (attrs : List (String × PyObj))
  | callable (id : Nat)
  | pynone

/-- One traversal step: dict key or object attribute. -/
def pyObjChild : PyObj → String → Option PyObj
  | .pydict es, n => pyGet es n
  | .attrObj es, n => pyGet es n
  | .callable _, _ => none
  | .pynone, _ => none

/-- `f'Function {fn_string} not recognized'`. -/
def functionNotRecognizedMsg (fn_string : String) : String :=
  s!"Function {fn_string} not recognized"

/-- The `for fn_name in fn_list` traversal loop (lines 121-129). -/
def traverseNS (fn_string : String) : PyObj → List String →
    Except PyErr PyObj
  | obj, [] => pure obj
  | obj, n :: rest =>
    match pyObjChild obj n with
    | some o2 => traverseNS fn_string o2 rest
    | none =>
      Except.error (PyErr.valueError (functionNotRecognizedMsg fn_string))

/-- Straightforward dotted-path lookup, the intended semantics of the
traversal loop. -/
def pathLookup : PyObj → List String → Option PyObj
  | obj, [] => some obj
  | obj, n :: rest =>
    match pyObjChild obj n with
    | some o2 => pathLookup o2 rest
    | none => none

/-- `str.split('.')`. -/
def pySplitDotAux : List Char → List (List Char)
  | [] => [[]]
  | c :: cs =>
    if c = '.' then [] :: pySplitDotAux cs
    else
      match pySplitDotAux cs with
      | [] => [[c]]
      | s :: rest => (c :: s) :: rest

def dotSegments (s : String) : List String :=
  (pySplitDotAux s.data).map (fun cs => (⟨cs⟩ : String))

def objOf : Option PyObj → PyObj
  | some o => o
  | none => .pynone

/-- Model of `get_nested_function(fn_string, stock_functions,
custom_functions, default_stock_functions)`.  `if
default_stock_functions:` is Python truthiness: `None` and `""` are
both falsy. -/
def get_nested_function (fn_string : String)
    (stock_functions : Option PyObj) (custom_functions : Option PyObj)
    (default_stock_functions : Option String) : Except PyErr PyObj :=
  if custom_functions.isNone ∧ stock_functions.isNone then
    Except.error (PyErr.valueError "No functions provided")
  else
    let segs := dotSegments ⟨pyStripChars fn_string.data⟩
    if segs.headD "" = "custom" then
      if segs.length = 1 then
        Except.error (PyErr.valueError "Custom function not defined correctly")
      else traverseNS fn_string (objOf custom_functions) (segs.drop 1)
    else
      let segs2 :=
        match default_stock_functions with
        | some d => if d = "" then segs else segs ++ [d]
        | none => segs
      traverseNS fn_string (objOf stock_functions) segs2

/-! ## Dataframe model and the fan-out extract wrappers
(recipe_wrangles/extract.py)

A dataframe is an ordered list of named columns; the wrappers call
`.astype(str)` before every transform, so cells are strings (transform
result cells — which may be lists or dicts in Python — are opaque here
and also typed `String`).  The transform argument stands for the
external service call (`_extract.address(...)` etc.) with its
non-column parameters baked in. -/

/-- `input`/`output` recipe parameters before the
`if not isinstance(x, list): x = [x]` coercion. -/
inductive ColSpec where
  | str (s : String)
  | list (l : List String)
deriving DecidableEq, Repr

def ColSpec.toPyList : ColSpec → List String
  | .str s => [s]
  | .list l => l

def Df : Type := List (String × List String)

/-- `df[c]`, raising `KeyError` on a missing column. -/
def getColE (df : Df) (c : String) : Except PyErr (List String) :=
  match pyGet df c with
  | some vs => pure vs
  | none => Except.error (PyErr.keyError c)

/-- `df[c] = values`: replace in place or append. -/
def setCol (df : Df) (c : String) (vs : List String) : Df :=
  pySet df c vs

/-- `sep.join(parts)`. -/
def joinSep (sep : String) : List String → String
  | [] => ""
  | [x] => x
  | x :: y :: rest => x ++ sep ++ joinSep sep (y :: rest)

/-- `df[input].aggregate(sep.join, axis=1).tolist()` on the fetched
columns: one joined string per row (pandas guarantees all columns have
the dataframe's shared length, so the row count is read off the first
column). -/
def aggJoin (dfcols : List (List String)) (sep : String) : List String :=
  match dfcols with
  | [] => []
  | c0 :: _ =>
    (List.range c0.length).map (fun i =>
      joinSep sep (dfcols.map (fun c => c.getD i "")))

def aggJoinE (df : Df) (input : List String) (sep : String) :
    Except PyErr (List String) := do
  let cols ← input.mapM (getColE df)
  pure (aggJoin cols sep)

/-- The zipped per-column loop shared by all wrappers:
`for input_column, output_column in zip(input, output):
df[output_column] = transform(df[input_column].astype(str).tolist())`,
mutating `df` as it goes. -/
def zipApply (df : Df) (input output : List String)
    (transform : List String → List String) : Except PyErr Df :=
  (input.zip output).foldlM (fun d io => do
    let vs ← getColE d io.1
    pure (setCol d io.2 (transform vs))) df

/-- The exact `ValueError` raised by every extract wrapper's
cardinality guard. -/
def extractLengthError : PyErr :=
  PyErr.valueError
    "Extract must output to a single column or equal amount of columns as input."

/-- `extract.address` (lines 11-70): guard, then aggregate with a
single-space separator when `len(output) == 1 and len(input) > 1`,
else the zipped loop. -/
def extract_address (df : Df) (input : ColSpec) (output : Option ColSpec)
    (transform : List String → List String) : Except PyErr Df :=
  let inL := input.toPyList
  let outL := (output.getD input).toPyList
  if inL.length ≠ outL.length ∧ outL.length > 1 then
    Except.error extractLengthError
  else if outL.length = 1 ∧ inL.length > 1 then do
    let joined ← aggJoinE df inL " "
    pure (setCol df (outL.headD "") (transform joined))
  else zipApply df inL outL transform

/-- `extract.attributes` (lines 209-316): same shape, but the
aggregate separator is `" AAA "`. -/
def extract_attributes (df : Df) (input : ColSpec)
    (output : Option ColSpec) (transform : List String → List String) :
    Except PyErr Df :=
  let inL := input.toPyList
  let outL := (output.getD input).toPyList
  if inL.length ≠ outL.length ∧ outL.length > 1 then
    Except.error extractLengthError
  else if outL.length = 1 ∧ inL.length > 1 then do
    let joined ← aggJoinE df inL " AAA "
    pure (setCol df (outL.headD "") (transform joined))
  else zipApply df inL outL transform

def bracket_types : List String := ["round", "square", "curly", "angled", "all"]

/-- `extract.brackets` (lines 319-381): guard, then `find` validation,
then aggregate with a single space / zipped loop. -/
def extract_brackets (df : Df) (input : ColSpec) (output : Option ColSpec)
    (find : ColSpec) (transform : List String → List String) :
    Except PyErr Df :=
  let inL := input.toPyList
  let outL := (output.getD input).toPyList
  if inL.length ≠ outL.length ∧ outL.length > 1 then
    Except.error extractLengthError
  else if ¬ (find.toPyList.all (fun e => e ∈ bracket_types)) then
    Except.error (PyErr.valueError
      "find must only contain the elements: round, square, curly, angled")
  else if outL.length = 1 ∧ inL.length > 1 then do
    let joined ← aggJoinE df inL " "
    pure (setCol df (outL.headD "") (transform joined))
  else zipApply df inL outL transform

/-- `extract.codes` (lines 384-432): aggregate separator `" AAA "`. -/
def extract_codes (df : Df) (input : ColSpec) (output : Option ColSpec)
    (transform : List String → List String) : Except PyErr Df :=
  let inL := input.toPyList
  let outL := (output.getD input).toPyList
  if inL.length ≠ outL.length ∧ outL.length > 1 then
    Except.error extractLengthError
  else if outL.length = 1 ∧ inL.length > 1 then do
    let joined ← aggJoinE df inL " AAA "
    pure (setCol df (outL.headD "") (transform joined))
  else zipApply df inL outL transform

/-- `extract.properties` (lines 772-840): aggregate separator `" "`. -/
def extract_properties (df : Df) (input : ColSpec)
    (output : Option ColSpec) (transform : List String → List String) :
    Except PyErr Df :=
  let inL := input.toPyList
  let outL := (output.getD input).toPyList
  if inL.length ≠ outL.length ∧ outL.length > 1 then
    Except.error extractLengthError
  else if outL.length = 1 ∧ inL.length > 1 then do
    let joined ← aggJoinE df inL " "
    pure (setCol df (outL.headD "") (transform joined))
  else zipApply df inL outL transform

/-- `extract.html` (lines 718-769): guard, then always the zipped loop
(no aggregate branch — with one output and several inputs `zip`
silently drops the extra inputs). -/
def extract_html (df : Df) (input : ColSpec) (output : Option ColSpec)
    (transform : List String → List String) : Except PyErr Df :=
  let inL := input.toPyList
  let outL := (output.getD input).toPyList
  if inL.length ≠ outL.length ∧ outL.length > 1 then
    Except.error extractLengthError
  else zipApply df inL outL transform

/-- `extract.regex` (lines 843-882): guard, then the zipped loop; the
per-column `df[input].apply(lambda x: re.findall(find, x))` is the
transform argument. -/
def extract_regex (df : Df) (input : ColSpec) (output : Option ColSpec)
    (transform : List String → List String) : Except PyErr Df :=
  let inL := input.toPyList
  let outL := (output.getD input).toPyList
  if inL.length ≠ outL.length ∧ outL.length > 1 then
    Except.error extractLengthError
  else zipApply df inL outL transform

/-! ## `split.tokenize` (recipe_wrangles/split.py lines 262-339) -/

/-- `str(method).startswith("custom.")`. -/
def startsCustomDot (s : String) : Bool :=
  List.isPrefixOf "custom.".data s.data

/-- Model of `split.tokenize`: output defaults to input, both are
coerced to lists, and then — unlike the extract wrappers — ANY length
mismatch raises.  The method is resolved after the guard; the
per-column `_format.tokenize(...)` call is the transform argument. -/
def split_tokenize (df : Df) (input : ColSpec) (output : Option ColSpec)
    (method : String) (functionsNS : PyObj)
    (transform : List String → List String) : Except PyErr Df :=
  let inL := input.toPyList
  let outL := (output.getD input).toPyList
  if inL.length ≠ outL.length then
    Except.error (PyErr.valueError
      "The list of inputs and outputs must be the same length for split.tokenize")
  else if startsCustomDot method then do
    let _ ← get_nested_function method none (some functionsNS) none
    zipApply df inL outL transform
  else if isRegexPrefixed method then
    zipApply df inL outL transform
  else if method ∈ ["space", "boundary", "boundary_ignore_space"] then
    zipApply df inL outL transform
  else
    Except.error (PyErr.valueError
      "Method must be one of: space, boundary, boundary_ignore_space, custom.<function>, regex:<pattern>")

/-! ## `split.list` (recipe_wrangles/split.py lines 108-157)

Cells here are heterogeneous (the input column holds lists, generated
output columns hold scalars), modelled by `PyVal`.  JSON parsing of
string-valued rows (`_json.loads(row)`) is outside the model: the
theorems quantify over columns whose cells are lists, which Python
passes through unparsed. -/

inductive PyVal where
  | s (v : String)
  | l (vs : List PyVal)

def DfV : Type := List (String × List PyVal)

/-- `row if isinstance(row, list) else _json.loads(row)`; a string row
would go through the unmodelled JSON parser, represented as an
error. -/
def parseListCell : PyVal → Except PyErr (List PyVal)
  | .l vs => pure vs
  | .s v => Except.error (PyErr.valueError s!"json.loads not modelled: {v}")

/-- `(isinstance(output, str) and '*' in output) or
(isinstance(output, list) and len(output) == 1 and '*' in output[0])`. -/
def wildcardOut : ColSpec → Bool
  | .str s => containsStar s
  | .list [o] => containsStar o
  | .list _ => false

def wildcardTemplate : ColSpec → String
  | .str s => s
  | .list l => l.headD ""

/-- `output.replace('*', str(i))`. -/
def replaceStarNum (s : String) (i : Nat) : String :=
  ⟨s.data.flatMap (fun c => if c = '*' then Nat.toDigits 10 i else [c])⟩

/-- `max([len(x) for x in results])` (over a non-empty list). -/
def listLenMax (rows : List (List PyVal)) : Nat :=
  (rows.map List.length).foldl max 0

/-- Lines 142-145: pad every row on the right with empty-string cells
up to the longest row's length. -/
def padRows (rows : List (List PyVal)) : List (List PyVal) :=
  rows.map (fun x =>
    x ++ List.replicate (listLenMax rows - x.length) (PyVal.s ""))

/-- Line 151: `[template.replace('*', str(i)) for i in
range(1, len(results[0]) + 1)]` (on the already padded rows). -/
def splitListHeaders (output : ColSpec) (rows : List (List PyVal)) :
    List String :=
  (List.range ((padRows rows).headD []).length).map
    (fun i => replaceStarNum (wildcardTemplate output) (i + 1))

/-- `df[headers] = rows`: assign the `j`-th element of every row to the
`j`-th header's column. -/
def setColsRowwise (df : DfV) (headers : List String)
    (rows : List (List PyVal)) : DfV :=
  headers.enum.foldl (fun d ji =>
    pySet d ji.2 (rows.map (fun r => r.getD ji.1 (PyVal.s "")))) df

/-- Model of `split.list(df, input, output)`. -/
def split_list (df : DfV) (input : String) (output : ColSpec) :
    Except PyErr DfV :=
  match pyGet df input with
  | none => Except.error (PyErr.keyError input)
  | some colVals =>
    match colVals.mapM parseListCell with
    | Except.error e => Except.error e
    | Except.ok results =>
      if results.length = 0 then pure df
      else if wildcardOut output then
        pure (setColsRowwise df (splitListHeaders output results)
          (padRows results))
      else
        match output with
        | .str name => pure (pySet df name ((padRows results).map PyVal.l))
        | .list names =>
          if (padRows results).all (fun r => r.length = names.length) then
            pure (setColsRowwise df names (padRows results))
          else
            Except.error
              (PyErr.valueError "Columns must be same length as key")

/-! ## Theorems -/

theorem pyGet_append {α : Type} (a b : List (String × α)) (k : String) :
    pyGet (a ++ b) k = ((pyGet a k).orElse (fun _ => pyGet b k)) := by
  induction a with
  | nil => simp [pyGet]
  | cons hd tl ih =>
    by_cases h : hd.1 = k <;> simp [pyGet, h, ih, Option.orElse]

theorem pyGet_eq_none_of_not_mem {α : Type} (d : List (String × α))
    (k : String) (h : k ∉ d.map Prod.fst) : pyGet d k = none := by
  induction d with
  | nil => rfl
  | cons hd tl ih =>
    simp only [List.map_cons, List.mem_cons] at h
    push_neg at h
    simp [pyGet, Ne.symm h.1, ih h.2]

theorem pyGet_mem_of_isSome {α : Type} (d : List (String × α)) (k : String)
    (h : (pyGet d k).isSome) : k ∈ d.map Prod.fst := by
  induction d with
  | nil => simp [pyGet] at h
  | cons hd tl ih =>
    by_cases hk : hd.1 = k
    · simp [hk]
    · simp [pyGet, hk] at h
      simp [ih h]

/-- Merging a dict whose keys are all absent from `b` and vice versa is
plain concatenation. -/
theorem pyMergeDicts_disjoint {α : Type} (a b : List (String × α))
    (hab : ∀ k ∈ a.map Prod.fst, pyGet b k = none)
    (hba : ∀ kv ∈ b, pyHasKey a kv.1 = false) :
    pyMergeDicts a b = a ++ b := by
  unfold pyMergeDicts
  congr 1
  · have h : ∀ kv ∈ a, (kv.1, (pyGet b kv.1).getD kv.2) = id kv := by
      intro kv hkv
      rw [hab kv.1 (List.mem_map_of_mem Prod.fst hkv)]
      rfl
    rw [List.map_congr_left h, List.map_id]
  · apply List.filter_eq_self.mpr
    intro kv hkv
    simp [hba kv hkv]

/-- Setting a fresh key appends it. -/
theorem pySet_fresh {α : Type} (d : List (String × α)) (k : String) (v : α)
    (h : pyHasKey d k = false) : pySet d k v = d ++ [(k, v)] := by
  simp [pySet, h]

theorem pyGet_map_replace_self {α : Type} (d : List (String × α))
    (k : String) (v : α) :
    pyGet (d.map fun kv => if kv.1 = k then (k, v) else kv) k =
      if pyHasKey d k then some v else none := by
  induction d with
  | nil => rfl
  | cons hd tl ih =>
    obtain ⟨k1, v1⟩ := hd
    by_cases h1 : k1 = k
    · subst h1
      rw [List.map_cons, if_pos (show ((k1, v1) : String × α).1 = k1 from rfl)]
      simp [pyGet, pyHasKey]
    · rw [List.map_cons, if_neg (show ¬ (((k1, v1) : String × α).1 = k) from h1)]
      simp [pyGet, pyHasKey, h1, ih]

theorem pyGet_map_replace_other {α : Type} (d : List (String × α))
    (k k' : String) (v : α) (h : k' ≠ k) :
    pyGet (d.map fun kv => if kv.1 = k then (k, v) else kv) k' =
      pyGet d k' := by
  induction d with
  | nil => rfl
  | cons hd tl ih =>
    obtain ⟨k1, v1⟩ := hd
    by_cases h1 : k1 = k
    · subst h1
      have h2 : ¬ (k1 = k') := fun hh => h hh.symm
      rw [List.map_cons, if_pos (show ((k1, v1) : String × α).1 = k1 from rfl)]
      simp only [pyGet, if_neg h2]
      exact ih
    · rw [List.map_cons, if_neg (show ¬ (((k1, v1) : String × α).1 = k) from h1)]
      by_cases h2 : k1 = k'
      · simp [pyGet, h2]
      · simp [pyGet, h2, ih]

theorem pyGet_pySet_self {α : Type} (d : List (String × α)) (k : String)
    (v : α) : pyGet (pySet d k v) k = some v := by
  unfold pySet
  by_cases hk : pyHasKey d k
  · simp [hk, pyGet_map_replace_self]
  · have hnone : pyGet d k = none := by
      simp [pyHasKey] at hk
      exact hk
    simp [hk, pyGet_append, hnone, pyGet, Option.orElse]

theorem pyGet_pySet_other {α : Type} (d : List (String × α))
    (k k' : String) (v : α) (h : k' ≠ k) :
    pyGet (pySet d k v) k' = pyGet d k' := by
  unfold pySet
  by_cases hk : pyHasKey d k
  · simp [hk, pyGet_map_replace_other d k k' v h]
  · have : ¬ (k = k') := fun hh => h hh.symm
    simp [hk, pyGet_append, pyGet, this]

theorem pyGet_filter_key {α : Type} (d : List (String × α))
    (P : String → Bool) (k : String) :
    pyGet (d.filter (fun kv => P kv.1)) k =
      if P k then pyGet d k else none := by
  induction d with
  | nil => simp [pyGet]
  | cons hd tl ih =>
    obtain ⟨k1, v1⟩ := hd
    by_cases h1 : k1 = k
    · subst h1
      by_cases hp : P k1
      · simp [List.filter_cons, hp, pyGet]
      · simp [List.filter_cons, hp, pyGet, ih]
    · by_cases hp : P k1 <;> simp [List.filter_cons, hp, pyGet, h1, ih]

theorem pyGet_map_override {α : Type} (a b : List (String × α)) (k : String) :
    pyGet (a.map fun kv => (kv.1, (pyGet b kv.1).getD kv.2)) k =
      (pyGet a k).map (fun v => (pyGet b k).getD v) := by
  induction a with
  | nil => rfl
  | cons hd tl ih =>
    obtain ⟨k1, v1⟩ := hd
    by_cases h1 : k1 = k
    · subst h1
      simp [pyGet]
    · simp [pyGet, h1, ih]

/-- Lookup in a Python `{**a, **b}` merge: `b` wins, else `a`. -/
theorem pyGet_pyMergeDicts {α : Type} (a b : List (String × α))
    (k : String) :
    pyGet (pyMergeDicts a b) k =
      (pyGet b k).orElse (fun _ => pyGet a k) := by
  unfold pyMergeDicts
  rw [pyGet_append, pyGet_map_override,
    pyGet_filter_key b (fun s => !pyHasKey a s) k]
  cases ha : pyGet a k with
  | some v =>
    have : pyHasKey a k := by simp [pyHasKey, ha]
    cases hb : pyGet b k <;> simp [this, Option.orElse]
  | none =>
    have : pyHasKey a k = false := by simp [pyHasKey, ha]
    cases hb : pyGet b k <;> simp [this, Option.orElse]

theorem pyGet_injectIfAbsent {α : Type} (d : List (String × α))
    (argspec : List String) (key k : String) (value : α) :
    pyGet (injectIfAbsent d argspec key value) k =
      if k = key ∧ ¬ pyHasKey d key ∧ key ∈ argspec then some value
      else pyGet d k := by
  unfold injectIfAbsent
  by_cases hg : ¬ pyHasKey d key ∧ key ∈ argspec
  · by_cases hk : k = key
    · subst hk
      simp [hg, pyGet_pySet_self]
    · simp [hg, hk, pyGet_pySet_other d key k value hk]
  · have h2 : ¬ (k = key ∧ pyHasKey d key = false ∧ key ∈ argspec) := by
      intro h
      exact hg ⟨by simp [h.2.1], h.2.2⟩
    have h3 : ¬ (pyHasKey d key = false ∧ key ∈ argspec) := by
      intro h
      exact hg ⟨by simp [h.1], h.2⟩
    simp [if_neg hg, if_neg h3, h2]

/-- C2 (amended).  Full lookup characterization of the Parameter Binder
`add_special_parameters`: the keys `functions`, `variables` and (when an
error is in flight) `error` are injected iff the callable declares a
formal parameter of that name and the key is not already in `params`,
and they never override an explicitly-set value; but a `common_params`
key that the callable declares is merged over `params` and DOES
overwrite an already-explicitly-set value, contrary to the original
claim. -/
theorem claim_C2_amended {α : Type} (params common_params : List (String × α))
    (argspec : List String) (functions variables' : α) (error : Option α)
    (k : String) :
    pyGet (add_special_parameters params argspec functions variables' error
        common_params) k =
      if k ∈ argspec ∧ pyHasKey common_params k then pyGet common_params k
      else if pyHasKey params k then pyGet params k
      else if k = "functions" ∧ "functions" ∈ argspec then some functions
      else if k = "variables" ∧ "variables" ∈ argspec then some variables'
      else if k = "error" ∧ "error" ∈ argspec ∧ error.isSome then error
      else none := by
  have hstep : ∀ (d : List (String × α)) (key : String) (value : α),
      k ≠ key → pyGet (injectIfAbsent d argspec key value) k = pyGet d k := by
    intro d key value hne
    rw [pyGet_injectIfAbsent]
    simp [hne]
  have hv : pyGet (injectIfAbsent params argspec "functions" functions)
      "variables" = pyGet params "variables" := by
    rw [pyGet_injectIfAbsent]
    simp
  have he : pyGet (injectIfAbsent
        (injectIfAbsent params argspec "functions" functions)
        argspec "variables" variables') "error" =
      pyGet params "error" := by
    rw [pyGet_injectIfAbsent, pyGet_injectIfAbsent]
    simp
  -- lookup after the three conditional injections
  have hmain : pyGet
      (match error with
        | some e => injectIfAbsent
            (injectIfAbsent (injectIfAbsent params argspec "functions" functions)
              argspec "variables" variables') argspec "error" e
        | none => injectIfAbsent
            (injectIfAbsent params argspec "functions" functions)
            argspec "variables" variables') k =
      (if pyHasKey params k then pyGet params k
      else if k = "functions" ∧ "functions" ∈ argspec then some functions
      else if k = "variables" ∧ "variables" ∈ argspec then some variables'
      else if k = "error" ∧ "error" ∈ argspec ∧ error.isSome then error
      else none) := by
    by_cases hA : pyHasKey params k
    · have h1 : pyGet (injectIfAbsent params argspec "functions" functions) k
          = pyGet params k := by
        by_cases hkf : k = "functions"
        · subst hkf
          rw [pyGet_injectIfAbsent]
          simp [hA]
        · exact hstep _ _ _ hkf
      have h2 : pyGet (injectIfAbsent
            (injectIfAbsent params argspec "functions" functions)
            argspec "variables" variables') k
          = pyGet params k := by
        by_cases hkv : k = "variables"
        · subst hkv
          rw [pyGet_injectIfAbsent]
          simp [pyHasKey, hv]
          intro h
          exact absurd hA (by simp [pyHasKey, h])
        · rw [hstep _ _ _ hkv, h1]
      cases error with
      | none => simp [h2, hA]
      | some e =>
        by_cases hke : k = "error"
        · subst hke
          rw [pyGet_injectIfAbsent]
          have hk2 : pyHasKey (injectIfAbsent
              (injectIfAbsent params argspec "functions" functions)
              argspec "variables" variables') "error" = true := by
            unfold pyHasKey at hA ⊢
            rw [he]
            exact hA
          simp [hk2, he, hA]
        · rw [hstep _ _ _ hke, h2]
          simp [hA]
    · have hAn : pyGet params k = none := by
        simpa [pyHasKey] using hA
      by_cases hkf : k = "functions"
      · subst hkf
        have h1 : pyGet (injectIfAbsent params argspec "functions" functions)
            "functions" =
            if "functions" ∈ argspec then some functions else none := by
          rw [pyGet_injectIfAbsent]
          by_cases hm : "functions" ∈ argspec <;> simp [hm, hA, hAn]
        have h2 : pyGet (injectIfAbsent
              (injectIfAbsent params argspec "functions" functions)
              argspec "variables" variables') "functions" =
            if "functions" ∈ argspec then some functions else none := by
          rw [hstep _ _ _ (by decide), h1]
        cases error with
        | none => simp [h2, hA]
        | some e =>
          rw [hstep _ _ _ (by decide), h2]
          simp [hA]
      · by_cases hkv : k = "variables"
        · subst hkv
          have h1 : pyGet (injectIfAbsent params argspec "functions" functions)
              "variables" = none := by rw [hv, hAn]
          have h2 : pyGet (injectIfAbsent
                (injectIfAbsent params argspec "functions" functions)
                argspec "variables" variables') "variables" =
              if "variables" ∈ argspec then some variables' else none := by
            rw [pyGet_injectIfAbsent]
            by_cases hm : "variables" ∈ argspec <;>
              simp [hm, pyHasKey, h1]
          cases error with
          | none => simp [h2, hA, hkf]
          | some e =>
            rw [hstep _ _ _ (by decide), h2]
            simp [hA, hkf]
        · by_cases hke : k = "error"
          · subst hke
            have h2 : pyGet (injectIfAbsent
                  (injectIfAbsent params argspec "functions" functions)
                  argspec "variables" variables') "error" = none := by
              rw [he, hAn]
            cases error with
            | none => simp [h2, hA, hkf, hkv]
            | some e =>
              rw [pyGet_injectIfAbsent]
              by_cases hm : "error" ∈ argspec <;>
                simp [hm, pyHasKey, h2, hA, hAn, hkf, hkv]
          · have h2 : pyGet (injectIfAbsent
                  (injectIfAbsent params argspec "functions" functions)
                  argspec "variables" variables') k = none := by
              rw [hstep _ _ _ hkv, hstep _ _ _ hkf, hAn]
            cases error with
            | none => simp [h2, hA, hkf, hkv, hke]
            | some e =>
              rw [hstep _ _ _ hke, h2]
              simp [hA, hkf, hkv, hke]
  unfold add_special_parameters
  by_cases hce : common_params.isEmpty
  · have : common_params = [] := by simpa [List.isEmpty_iff] using hce
    subst this
    simp only [hce, if_true]
    rw [hmain]
    simp [pyHasKey, pyGet]
  · simp only [hce, if_false, Bool.false_eq_true]
    rw [pyGet_pyMergeDicts, hmain,
      pyGet_filter_key common_params (fun s => decide (s ∈ argspec)) k]
    by_cases hm : k ∈ argspec
    · by_cases hck : pyHasKey common_params k
      · obtain ⟨cv, hcv⟩ := Option.isSome_iff_exists.mp hck
        simp [hm, hck, hcv, Option.orElse]
      · have : pyGet common_params k = none := by
          simpa [pyHasKey] using hck
        simp [hm, hck, this, Option.orElse]
    · simp [hm, Option.orElse]

/-- C2 counterexample to the original claim: with `params = {"x": 1}`,
a callable declaring a parameter `x`, and `common_params = {"x": 2}`,
the binder returns `{"x": 2}` — the explicitly-set value 1 was changed,
so a `common_params` key is injected even though it was already present
in `params`. -/
theorem claim_C2_counterexample :
    pyGet (add_special_parameters [("x", (1 : Nat))] ["x"] 0 0 none
      [("x", 2)]) "x" = some 2 ∧
    pyGet [("x", (1 : Nat))] "x" = some 1 := by
  constructor <;> rfl

/-! ## Wildcard desugaring: characterization lemmas -/

theorem splitStarsAux_ne_nil (prev : Option Char) (cs : List Char) :
    splitStarsAux prev cs ≠ [] := by
  cases cs with
  | nil => simp [splitStarsAux]
  | cons c cs =>
    by_cases h : (c = '*' ∧ prev ≠ some '\\')
    · simp [splitStarsAux, h]
    · simp only [splitStarsAux, if_neg h]
      cases hs : splitStarsAux (some c) cs <;> simp

/-- The character scan `subStarsAux` is the same as splitting at the
unescaped stars and re-joining with the replacement text. -/
theorem subStarsAux_eq_joinWith (repl : List Char) (cs : List Char) :
    ∀ prev, subStarsAux repl prev cs =
      joinWith repl (splitStarsAux prev cs) := by
  induction cs with
  | nil => intro prev; rfl
  | cons c cs ih =>
    intro prev
    by_cases h : (c = '*' ∧ prev ≠ some '\\')
    · simp only [subStarsAux, if_pos h, splitStarsAux, ih]
      cases hsp : splitStarsAux (some c) cs with
      | nil => exact absurd hsp (splitStarsAux_ne_nil _ _)
      | cons s rest => simp [joinWith]
    · simp only [subStarsAux, if_neg h, splitStarsAux, ih]
      cases hsp : splitStarsAux (some c) cs with
      | nil => exact absurd hsp (splitStarsAux_ne_nil _ _)
      | cons s rest =>
        cases rest with
        | nil => simp [joinWith]
        | cons r rs => simp [joinWith]

/-- The rename-value scan is splitting at unescaped stars and
re-joining with `\g<n>`, `n` counting up from the start value. -/
theorem subStarsValAux_eq_joinWithRefs (cs : List Char) :
    ∀ n prev, subStarsValAux n prev cs =
      joinWithRefs n (splitStarsAux prev cs) := by
  induction cs with
  | nil => intro n prev; rfl
  | cons c cs ih =>
    intro n prev
    by_cases h : (c = '*' ∧ prev ≠ some '\\')
    · simp only [subStarsValAux, if_pos h, splitStarsAux, ih]
      cases hsp : splitStarsAux (some c) cs with
      | nil => exact absurd hsp (splitStarsAux_ne_nil _ _)
      | cons s rest => simp [joinWithRefs]
    · simp only [subStarsValAux, if_neg h, splitStarsAux, ih]
      cases hsp : splitStarsAux (some c) cs with
      | nil => exact absurd hsp (splitStarsAux_ne_nil _ _)
      | cons s rest =>
        cases rest with
        | nil => simp [joinWithRefs]
        | cons r rs => simp [joinWithRefs]

/-- A string with an unescaped star contains a star, so it passes the
`re.search(r'[^\\]?\*', ...)` trigger. -/
theorem contains_of_hasUnescapedStar (cs : List Char) :
    ∀ prev, hasUnescapedStarAux prev cs = true →
      cs.contains '*' = true := by
  induction cs with
  | nil =>
    intro prev h
    simp [hasUnescapedStarAux] at h
  | cons c cs ih =>
    intro prev h
    simp only [hasUnescapedStarAux, decide_eq_true_eq] at h
    rcases h with ⟨h1, _⟩ | h2
    · simp [List.contains_cons, h1]
    · have := ih _ h2
      simp only [List.contains_cons, Bool.or_eq_true]
      right
      exact this

/-- C3 (confirmed).  Wildcard keys: a spec key containing an unescaped
`*` and not `regex:`-prefixed is desugared to `regex:` followed by the
key with each unescaped `*` replaced by `(.*)` (equivalently: its
star-split segments joined by `(.*)`), and the paired rename value has
each unescaped `*` replaced by `\g<1>`, `\g<2>`, … in first-seen
order; and on columns `["a_1","a_2","b"]` with spec `{"a_*": "x_*"}`
the expansion yields exactly `{"a_1": "x_1", "a_2": "x_2"}` in that
order, excluding `"b"`. -/
theorem claim_C3_wildcard_desugar :
    (∀ k v : String, hasUnescapedStar k = true → isRegexPrefixed k = false →
      desugarPair (k, v) =
        (⟨"regex:".data ++ joinWith "(.*)".data (splitStarsAux none k.data)⟩,
          ⟨joinWithRefs 1 (splitStarsAux none v.data)⟩)) ∧
    wildcard_expansion_dict ["a_1", "a_2", "b"] [("a_*", "x_*")] =
      Except.ok [("a_1", "x_1"), ("a_2", "x_2")] := by
  constructor
  · intro k v hstar hregex
    have hc : containsStar k = true :=
      contains_of_hasUnescapedStar k.data none hstar
    unfold desugarPair
    rw [if_pos (by simp [hc, hregex])]
    rw [subStarsAux_eq_joinWith, subStarsValAux_eq_joinWithRefs]
  · rfl

/-- Witness for C3 at `k = "a_*"`, `v = "x_*"`. -/
theorem claim_C3_wildcard_desugar_witness :
    hasUnescapedStar "a_*" = true ∧ isRegexPrefixed "a_*" = false ∧
    desugarPair ("a_*", "x_*") = ("regex:a_(.*)", "x_\\g<1>") :=
  ⟨by decide, by decide,
    (claim_C3_wildcard_desugar.1 "a_*" "x_*" (by decide) (by decide)).trans
      (by decide)⟩

/-! ## Structure of `desugaredSel` -/

theorem mem_pySet {α : Type} (d : List (String × α)) (k : String) (v : α)
    (kv' : String × α) (h : kv' ∈ pySet d k v) :
    kv' ∈ d ∨ kv'.1 = k := by
  unfold pySet at h
  by_cases hk : pyHasKey d k
  · rw [if_pos hk] at h
    obtain ⟨kv, hkv, hmap⟩ := List.mem_map.mp h
    by_cases he : kv.1 = k
    · rw [if_pos he] at hmap
      right
      rw [← hmap]
    · rw [if_neg he] at hmap
      left
      rw [← hmap]
      exact hkv
  · rw [if_neg hk] at h
    rcases List.mem_append.mp h with h1 | h1
    · exact Or.inl h1
    · right
      simp at h1
      rw [h1]

theorem mem_foldl_pySet {α : Type} (f : String × α → String × α) :
    ∀ (l : List (String × α)) (d : List (String × α)) (kv' : String × α),
    kv' ∈ l.foldl (fun d kv => pySet d (f kv).1 (f kv).2) d →
    kv' ∈ d ∨ ∃ kv ∈ l, kv'.1 = (f kv).1 := by
  intro l
  induction l with
  | nil =>
    intro d kv' h
    exact Or.inl h
  | cons hd tl ih =>
    intro d kv' h
    rcases ih _ kv' h with h1 | ⟨kv, hkv, hkey⟩
    · rcases mem_pySet _ _ _ _ h1 with h2 | h2
      · exact Or.inl h2
      · exact Or.inr ⟨hd, List.mem_cons_self hd tl, h2⟩
    · exact Or.inr ⟨kv, List.mem_cons_of_mem hd hkv, hkey⟩

/-- Every key of the desugared dict is the desugared key of some spec
entry. -/
theorem desugaredSel_keys (selected : List (String × String))
    (kv' : String × String) (h : kv' ∈ desugaredSel selected) :
    ∃ kv ∈ selected, kv'.1 = (desugarPair kv).1 := by
  have := mem_foldl_pySet desugarPair selected [] kv' h
  simpa using this

/-- Processing a run of optional-and-absent literal keys leaves the
accumulator unchanged. -/
theorem fold_skip_optional (cols : List String)
    (sel : List (String × String)) :
    ∀ (l : List (String × String)) (acc : List (String × String)),
    (∀ kv ∈ l, isRegexPrefixed kv.1 = false ∧
      kv.1.data.getLast? = some '?' ∧ kv.1 ∉ cols ∧
      (⟨kv.1.data.dropLast⟩ : String) ∉ cols) →
    List.foldlM (fun acc kv => processEntry cols sel acc kv) acc l =
      Except.ok acc := by
  intro l
  induction l with
  | nil => intro acc _; rfl
  | cons hd tl ih =>
    intro acc hall
    obtain ⟨hregex, hlast, habs, hstrip⟩ := hall hd (List.mem_cons_self hd tl)
    have hne : ¬ (hd.1.data = []) := by
      intro h
      rw [h] at hlast
      simp at hlast
    have hstep : processEntry cols sel acc hd = Except.ok acc := by
      unfold processEntry
      rw [if_neg (by simp [hregex]), if_neg hne, if_pos ⟨hlast, habs⟩]
      unfold processLiteral
      rw [if_neg hstrip]
      rfl
    simp only [List.foldlM_cons, hstep]
    exact ih acc (fun kv hkv => hall kv (List.mem_cons_of_mem hd hkv))

/-- A single present literal key maps directly to its target. -/
theorem wildcard_single_literal_present (cols : List String) (k v : String)
    (hcs : containsStar k = false) (hre : isRegexPrefixed k = false)
    (hne : k ≠ "") (hmem : k ∈ cols) :
    wildcard_expansion_dict cols [(k, v)] = Except.ok [(k, v)] := by
  have hsel : desugaredSel [(k, v)] = [(k, v)] := by
    unfold desugaredSel desugarPair
    simp [hcs, pySet, pyHasKey, pyGet]
  have hned : ¬ (k.data = []) := by
    intro h
    exact hne (String.ext h)
  have hstep : processEntry cols [(k, v)] [] (k, v) =
      Except.ok [(k, v)] := by
    unfold processEntry
    rw [if_neg (by simp [hre]), if_neg hned]
    have hcond : ¬ (k.data.getLast? = some '?' ∧
        ¬ (((k, v) : String × String).1 ∈ cols)) := by
      intro hc
      exact hc.2 hmem
    rw [if_neg hcond]
    unfold processLiteral
    rw [if_pos (show (k : String) ∈ cols from hmem)]
    have hg : pyGet [(k, v)] k = some v := by simp [pyGet]
    rw [hg]
    rfl
  unfold wildcard_expansion_dict
  rw [hsel]
  simp only [List.foldlM_cons, hstep]
  rfl

/-- C5 (confirmed).  Literal keys in `wildcard_expansion_dict`:
(a) a spec consisting only of optional (`?`-suffixed) keys absent from
the columns yields the empty mapping with no error; (b) a single
absent non-optional literal key fails with a `KeyError` naming the
column (`'Column <name> does not exist'`, surfaced as
`MissingColumnError` in the spec's taxonomy); (c) a present literal
key is mapped directly to its rename target. -/
theorem claim_C5_literal_keys :
    (∀ (cols : List String) (selected : List (String × String)),
      (∀ kv ∈ selected, containsStar kv.1 = false ∧
        isRegexPrefixed kv.1 = false ∧
        kv.1.data.getLast? = some '?' ∧ kv.1 ∉ cols ∧
        (⟨kv.1.data.dropLast⟩ : String) ∉ cols) →
      wildcard_expansion_dict cols selected = Except.ok []) ∧
    (∀ (cols : List String) (k v : String) (lastc : Char),
      containsStar k = false → isRegexPrefixed k = false →
      k.data.getLast? = some lastc → lastc ≠ '?' → k ∉ cols →
      wildcard_expansion_dict cols [(k, v)] =
        Except.error (PyErr.keyError s!"Column {k} does not exist")) ∧
    (∀ (cols : List String) (k v : String),
      containsStar k = false → isRegexPrefixed k = false →
      k ≠ "" → k ∈ cols →
      wildcard_expansion_dict cols [(k, v)] = Except.ok [(k, v)]) := by
  refine ⟨?_, ?_, ?_⟩
  · intro cols selected hall
    unfold wildcard_expansion_dict
    apply fold_skip_optional
    intro kv hkv
    obtain ⟨kv0, hkv0, hkey⟩ := desugaredSel_keys selected kv hkv
    obtain ⟨hcs, hre, hlast, habs, hstrip⟩ := hall kv0 hkv0
    have hid : (desugarPair kv0).1 = kv0.1 := by
      unfold desugarPair
      rw [if_neg (by simp [hcs])]
    rw [hkey, hid]
    exact ⟨hre, hlast, habs, hstrip⟩
  · intro cols k v lastc hcs hre hlast hq habs
    have hsel : desugaredSel [(k, v)] = [(k, v)] := by
      unfold desugaredSel desugarPair
      simp [hcs, pySet, pyHasKey, pyGet]
    have hne : ¬ (k.data = []) := by
      intro h
      rw [h] at hlast
      simp at hlast
    have hstep : processEntry cols [(k, v)] [] (k, v) =
        Except.error (PyErr.keyError s!"Column {k} does not exist") := by
      unfold processEntry
      rw [if_neg (by simp [hre]), if_neg hne]
      have hcond : ¬ (k.data.getLast? = some '?' ∧
          ¬ (((k, v) : String × String).1 ∈ cols)) := by
        intro hc
        rw [hlast] at hc
        exact hq (Option.some.inj hc.1)
      rw [if_neg hcond]
      unfold processLiteral
      rw [if_neg habs]
      rfl
    unfold wildcard_expansion_dict
    rw [hsel]
    simp only [List.foldlM_cons, hstep]
    rfl
  · exact wildcard_single_literal_present

/-- Witness for C5: (a) at columns `["a"]`, spec `{"missing?":
"missing"}`; (b) at spec `{"missing": "missing"}`; (c) at spec
`{"a": "b"}`. -/
theorem claim_C5_literal_keys_witness :
    wildcard_expansion_dict ["a"] [("missing?", "missing")] =
      Except.ok [] ∧
    wildcard_expansion_dict ["a"] [("missing", "missing")] =
      Except.error (PyErr.keyError "Column missing does not exist") ∧
    wildcard_expansion_dict ["a"] [("a", "b")] = Except.ok [("a", "b")] :=
  ⟨claim_C5_literal_keys.1 ["a"] [("missing?", "missing")]
      (by intro kv hkv; simp at hkv; rw [hkv]; refine ⟨by decide, by decide,
        by decide, by decide, by decide⟩),
    claim_C5_literal_keys.2.1 ["a"] "missing" "missing" 'g' (by decide)
      (by decide) (by decide) (by decide) (by decide),
    claim_C5_literal_keys.2.2 ["a"] "a" "b" (by decide) (by decide)
      (by decide) (by simp)⟩

/-- C9 (confirmed).  A literal `?`-suffixed spec key that IS a real
column is matched under its full name (in both
`wildcard_expansion_dict` and `wildcard_expansion`); the
optional-marker stripping happens only when the `?`-suffixed name is
absent from the columns (shown on `wildcard_expansion`, where an
absent `name?` with `name` present resolves to the stripped name). -/
theorem claim_C9_optional_suffix :
    (∀ (cols : List String) (k v : String),
      containsStar k = false → isRegexPrefixed k = false →
      k.data.getLast? = some '?' → k ∈ cols →
      wildcard_expansion_dict cols [(k, v)] = Except.ok [(k, v)]) ∧
    (∀ (cols : List String) (k : String),
      containsStar k = false → isRegexPrefixed k = false →
      k.data.getLast? = some '?' → k ∈ cols →
      wildcard_expansion cols [k] = Except.ok [k]) ∧
    (∀ (cols : List String) (k : String),
      containsStar k = false → isRegexPrefixed k = false →
      k.data.getLast? = some '?' → k ∉ cols →
      (⟨k.data.dropLast⟩ : String) ∈ cols →
      wildcard_expansion cols [k] =
        Except.ok [⟨k.data.dropLast⟩]) := by
  refine ⟨?_, ?_, ?_⟩
  · intro cols k v hcs hre hlast hmem
    have hned : ¬ (k.data = []) := by
      intro h
      rw [h] at hlast
      simp at hlast
    exact wildcard_single_literal_present cols k v hcs hre
      (fun h => hned (congrArg String.data h)) hmem
  · intro cols k hcs hre hlast hmem
    have hned : ¬ (k.data = []) := by
      intro h
      rw [h] at hlast
      simp at hlast
    have hkey : desugarKey k = k := by
      unfold desugarKey
      rw [if_neg (by simp [hcs])]
    unfold wildcard_expansion
    simp only [List.map_cons, List.map_nil, hkey, List.foldlM_cons]
    rw [if_neg (by simp [hre]), if_neg hned,
      if_neg (show ¬ (k.data.getLast? = some '?' ∧ ¬ (k ∈ cols)) from
        fun hc => hc.2 hmem)]
    unfold expansionLiteral
    rw [if_pos hmem]
    rfl
  · intro cols k hcs hre hlast habs hmem
    have hned : ¬ (k.data = []) := by
      intro h
      rw [h] at hlast
      simp at hlast
    have hkey : desugarKey k = k := by
      unfold desugarKey
      rw [if_neg (by simp [hcs])]
    unfold wildcard_expansion
    simp only [List.map_cons, List.map_nil, hkey, List.foldlM_cons]
    rw [if_neg (by simp [hre]), if_neg hned, if_pos ⟨hlast, habs⟩]
    unfold expansionLiteral
    rw [if_pos hmem]
    rfl

/-- Witness for C9: columns `["name?"]` with key `"name?"` (kept with
the `?`), and columns `["name"]` with key `"name?"` (stripped). -/
theorem claim_C9_optional_suffix_witness :
    wildcard_expansion_dict ["name?"] [("name?", "t")] =
      Except.ok [("name?", "t")] ∧
    wildcard_expansion ["name?"] ["name?"] = Except.ok ["name?"] ∧
    wildcard_expansion ["name"] ["name?"] = Except.ok ["name"] :=
  ⟨claim_C9_optional_suffix.1 ["name?"] "name?" "t" (by decide) (by decide)
      (by decide) (by simp),
    claim_C9_optional_suffix.2.1 ["name?"] "name?" (by decide) (by decide)
      (by decide) (by simp),
    claim_C9_optional_suffix.2.2 ["name"] "name?" (by decide) (by decide)
      (by decide) (by simp) (by simp)⟩

theorem pyGet_isSome_of_mem {α : Type} (d : List (String × α)) (k : String)
    (h : k ∈ d.map Prod.fst) : (pyGet d k).isSome := by
  induction d with
  | nil => simp at h
  | cons hd tl ih =>
    by_cases hk : hd.1 = k
    · simp [pyGet, hk]
    · simp only [List.map_cons, List.mem_cons] at h
      rcases h with h | h
      · exact absurd h.symm hk
      · simp [pyGet, hk, ih h]

theorem pySet_keys {α : Type} (d : List (String × α)) (k : String) (v : α) :
    (pySet d k v).map Prod.fst =
      if pyHasKey d k then d.map Prod.fst else d.map Prod.fst ++ [k] := by
  unfold pySet
  by_cases h : pyHasKey d k
  · rw [if_pos h, if_pos h, List.map_map]
    apply List.map_congr_left
    intro kv _
    by_cases hk : kv.1 = k
    · simp [hk, Function.comp]
    · simp [hk, Function.comp]
  · rw [if_neg h, if_neg h]
    simp

theorem pySet_nodup_keys {α : Type} (d : List (String × α)) (k : String)
    (v : α) (h : (d.map Prod.fst).Nodup) :
    ((pySet d k v).map Prod.fst).Nodup := by
  rw [pySet_keys]
  by_cases hk : pyHasKey d k
  · rwa [if_pos hk]
  · rw [if_neg hk]
    have hnm : k ∉ d.map Prod.fst := by
      intro hmem
      rw [pyHasKey, pyGet_isSome_of_mem d k hmem] at hk
      exact hk rfl
    rw [List.nodup_append]
    refine ⟨h, List.nodup_singleton k, ?_⟩
    intro a ha hb
    simp only [List.mem_singleton] at hb
    exact hnm (hb ▸ ha)

/-- The desugared dict always has pairwise-distinct keys. -/
theorem desugaredSel_nodup_keys (selected : List (String × String)) :
    ((desugaredSel selected).map Prod.fst).Nodup := by
  have hgen : ∀ (l : List (String × String)) (d : List (String × String)),
      (d.map Prod.fst).Nodup →
      ((l.foldl (fun d kv =>
        pySet d (desugarPair kv).1 (desugarPair kv).2) d).map
        Prod.fst).Nodup := by
    intro l
    induction l with
    | nil => intro d h; exact h
    | cons hd tl ih =>
      intro d h
      exact ih _ (pySet_nodup_keys _ _ _ h)
  have := hgen selected [] (by simp)
  unfold desugaredSel
  convert this using 2

theorem pyGet_of_mem_nodup {α : Type} (d : List (String × α))
    (kv : String × α) (hm : kv ∈ d) (hnd : (d.map Prod.fst).Nodup) :
    pyGet d kv.1 = some kv.2 := by
  induction d with
  | nil => simp at hm
  | cons hd tl ih =>
    rcases List.mem_cons.mp hm with h | h
    · subst h
      simp [pyGet]
    · have hne : hd.1 ≠ kv.1 := by
        intro he
        have h1 : hd.1 ∉ tl.map Prod.fst := (List.nodup_cons.mp hnd).1
        exact h1 (he ▸ List.mem_map_of_mem Prod.fst h)
      simp only [pyGet, if_neg hne]
      exact ih h (List.nodup_cons.mp hnd).2

theorem except_bind_error {ε α β : Type} (e : ε) (f : α → Except ε β) :
    (Except.error e >>= f) = Except.error e := rfl

theorem except_bind_ok {ε α β : Type} (a : α) (f : α → Except ε β) :
    (Except.ok a >>= f) = f a := rfl

/-- Accumulator decomposition of the second loop: each regex entry
prepends its matched pairs in front of everything so far, each literal
entry appends, so the final dict is the regex blocks in reverse
pattern order followed by the literal entries in order. -/
theorem fold_order (cols : List String) (sel : List (String × String)) :
    ∀ (l R L r : List (String × String)),
    List.foldlM (fun acc kv => processEntry cols sel acc kv) (R ++ L) l =
      Except.ok r →
    (l.flatMap (entryKeys cols)).Nodup →
    (∀ key ∈ l.flatMap (entryKeys cols), key ∉ (R ++ L).map Prod.fst) →
    (∀ kv ∈ l, isRegexPrefixed kv.1 = false →
      kv.1 ∈ cols ∧ pyGet sel kv.1 = some kv.2) →
    r = (l.filter (fun kv => isRegexPrefixed kv.1)).reverse.flatMap
          (fun kv => matchedPairsD cols kv.1 kv.2) ++ R ++
        (L ++ l.filter (fun kv => !isRegexPrefixed kv.1)) := by
  intro l
  induction l with
  | nil =>
    intro R L r hok _ _ _
    simp only [List.foldlM_nil] at hok
    have hr' := Except.ok.inj hok
    rw [← hr']
    simp
  | cons e l' ih =>
    intro R L r hok h1 h2 hlit
    rw [List.foldlM_cons] at hok
    by_cases hr : isRegexPrefixed e.1
    · -- regex entry: its matches are merged in front of the accumulator
      have hstep0 : processEntry cols sel (R ++ L) e =
          matchedPairsE cols e.1 e.2 >>= fun ps =>
            pure (pyMergeDicts ps (R ++ L)) := by
        unfold processEntry
        rw [if_pos hr]
      cases heq : matchedPairsE cols e.1 e.2 with
      | error ε =>
        rw [hstep0, heq, except_bind_error, except_bind_error] at hok
        exact absurd hok (by simp)
      | ok ps =>
        rw [hstep0, heq, except_bind_ok,
          show (pure (pyMergeDicts ps (R ++ L)) :
            Except PyErr (List (String × String))) =
            Except.ok (pyMergeDicts ps (R ++ L)) from rfl,
          except_bind_ok] at hok
        have hpsD : matchedPairsD cols e.1 e.2 = ps := by
          unfold matchedPairsD
          rw [heq]
          rfl
        have hek : entryKeys cols e = ps.map Prod.fst := by
          unfold entryKeys
          rw [if_pos hr, hpsD]
        have hdisj1 : ∀ key ∈ ps.map Prod.fst,
            key ∉ (R ++ L).map Prod.fst := by
          intro key hkey
          apply h2
          rw [List.flatMap_cons]
          exact List.mem_append_left _ (hek ▸ hkey)
        have hmerge : pyMergeDicts ps (R ++ L) = ps ++ (R ++ L) := by
          apply pyMergeDicts_disjoint
          · intro key hkey
            exact pyGet_eq_none_of_not_mem _ _ (hdisj1 key hkey)
          · intro kv hkv
            by_contra hc
            simp only [Bool.not_eq_false] at hc
            have hmm : kv.1 ∈ ps.map Prod.fst :=
              pyGet_mem_of_isSome ps kv.1 (by rwa [pyHasKey] at hc)
            exact hdisj1 kv.1 hmm (List.mem_map_of_mem Prod.fst hkv)
        rw [hmerge, ← List.append_assoc] at hok
        have h1' : (l'.flatMap (entryKeys cols)).Nodup := by
          rw [List.flatMap_cons] at h1
          exact h1.of_append_right
        have hdisj2 : List.Disjoint (entryKeys cols e)
            (l'.flatMap (entryKeys cols)) := by
          rw [List.flatMap_cons] at h1
          exact List.disjoint_of_nodup_append h1
        have h2' : ∀ key ∈ l'.flatMap (entryKeys cols),
            key ∉ ((ps ++ R) ++ L).map Prod.fst := by
          intro key hkey
          have hnotRL := h2 key (by
            rw [List.flatMap_cons]
            exact List.mem_append_right _ hkey)
          have hnotps : key ∉ ps.map Prod.fst := by
            intro hmem
            exact (hdisj2 (hek ▸ hmem)) hkey
          intro hmem
          simp only [List.map_append, List.mem_append] at hmem hnotRL
          push_neg at hnotRL
          rcases hmem with (h | h) | h
          · exact hnotps h
          · exact hnotRL.1 h
          · exact hnotRL.2 h
        have hlit' : ∀ kv ∈ l', isRegexPrefixed kv.1 = false →
            kv.1 ∈ cols ∧ pyGet sel kv.1 = some kv.2 :=
          fun kv hkv => hlit kv (List.mem_cons_of_mem e hkv)
        have hres := ih (ps ++ R) L r hok h1' h2' hlit'
        rw [hres]
        have hfil1 : (e :: l').filter (fun kv => isRegexPrefixed kv.1) =
            e :: l'.filter (fun kv => isRegexPrefixed kv.1) := by
          simp [List.filter_cons, hr]
        have hfil2 : (e :: l').filter (fun kv => !isRegexPrefixed kv.1) =
            l'.filter (fun kv => !isRegexPrefixed kv.1) := by
          simp [List.filter_cons, hr]
        rw [hfil1, hfil2, List.reverse_cons, List.flatMap_append]
        simp only [List.flatMap_cons, List.flatMap_nil, List.append_nil,
          hpsD]
        simp [List.append_assoc]
    · -- literal entry: appended at the end of the accumulator
      have hrf : isRegexPrefixed e.1 = false := by
        simpa using hr
      obtain ⟨hmem, hget⟩ := hlit e (List.mem_cons_self e l') hrf
      by_cases hde : e.1.data = []
      · have hstep : processEntry cols sel (R ++ L) e =
            Except.error PyErr.indexError := by
          unfold processEntry
          rw [if_neg (by simp [hrf]), if_pos hde]
        rw [hstep, except_bind_error] at hok
        exact absurd hok (by simp)
      · have hcond : ¬ (e.1.data.getLast? = some '?' ∧ ¬ (e.1 ∈ cols)) :=
          fun hc => hc.2 hmem
        have hfresh : e.1 ∉ (R ++ L).map Prod.fst := by
          apply h2
          rw [List.flatMap_cons]
          apply List.mem_append_left
          unfold entryKeys
          rw [if_neg (by simp [hrf])]
          exact List.mem_singleton_self _
        have hsetkey : pyHasKey (R ++ L) e.1 = false := by
          rw [pyHasKey, pyGet_eq_none_of_not_mem _ _ hfresh]
          rfl
        have hstep : processEntry cols sel (R ++ L) e =
            Except.ok ((R ++ L) ++ [(e.1, e.2)]) := by
          unfold processEntry
          rw [if_neg (by simp [hrf]), if_neg hde, if_neg hcond]
          unfold processLiteral
          rw [if_pos hmem, hget]
          show Except.ok (pySet (R ++ L) e.1 e.2) = _
          rw [pySet_fresh _ _ _ hsetkey]
        rw [hstep, except_bind_ok, List.append_assoc] at hok
        have h1' : (l'.flatMap (entryKeys cols)).Nodup := by
          rw [List.flatMap_cons] at h1
          exact h1.of_append_right
        have hdisj2 : List.Disjoint (entryKeys cols e)
            (l'.flatMap (entryKeys cols)) := by
          rw [List.flatMap_cons] at h1
          exact List.disjoint_of_nodup_append h1
        have h2' : ∀ key ∈ l'.flatMap (entryKeys cols),
            key ∉ (R ++ (L ++ [(e.1, e.2)])).map Prod.fst := by
          intro key hkey
          have hnotRL := h2 key (by
            rw [List.flatMap_cons]
            exact List.mem_append_right _ hkey)
          have hnote : key ≠ e.1 := by
            intro hkk
            apply hdisj2 (a := key) _ hkey
            unfold entryKeys
            rw [if_neg (by simp [hrf])]
            simp [hkk]
          intro hmem
          simp only [List.map_append, List.mem_append, List.map_cons,
            List.map_nil, List.mem_cons] at hmem hnotRL
          push_neg at hnotRL
          rcases hmem with h | h | h
          · exact hnotRL.1 h
          · exact hnotRL.2 h
          · rcases h with h | h
            · exact hnote h
            · simp at h
        have hlit' : ∀ kv ∈ l', isRegexPrefixed kv.1 = false →
            kv.1 ∈ cols ∧ pyGet sel kv.1 = some kv.2 :=
          fun kv hkv => hlit kv (List.mem_cons_of_mem e hkv)
        have hres := ih R (L ++ [(e.1, e.2)]) r hok h1' h2' hlit'
        rw [hres]
        have hfil1 : (e :: l').filter (fun kv => isRegexPrefixed kv.1) =
            l'.filter (fun kv => isRegexPrefixed kv.1) := by
          simp [List.filter_cons, hrf]
        have hfil2 : (e :: l').filter (fun kv => !isRegexPrefixed kv.1) =
            e :: l'.filter (fun kv => !isRegexPrefixed kv.1) := by
          simp [List.filter_cons, hrf]
        rw [hfil1, hfil2]
        simp [List.append_assoc]

/-- A successful loop step never loses a binding whose value agrees
with the desugared dict: regex merges keep the old value and literal
re-assignments write the same looked-up value. -/
theorem step_preserves (cols : List String) (sel : List (String × String))
    (acc : List (String × String)) (e : String × String)
    (acc' : List (String × String)) (k v : String)
    (hstep : processEntry cols sel acc e = Except.ok acc')
    (hsel : pyGet sel k = some v) (hacc : pyGet acc k = some v) :
    pyGet acc' k = some v := by
  unfold processEntry at hstep
  by_cases hr : isRegexPrefixed e.1
  · rw [if_pos hr] at hstep
    cases heq : matchedPairsE cols e.1 e.2 with
    | error ε =>
      rw [heq, except_bind_error] at hstep
      exact absurd hstep (by simp)
    | ok ps =>
      rw [heq, except_bind_ok] at hstep
      have hacc' : acc' = pyMergeDicts ps acc := (Except.ok.inj hstep).symm
      rw [hacc', pyGet_pyMergeDicts, hacc]
      rfl
  · rw [if_neg hr] at hstep
    by_cases hde : e.1.data = []
    · rw [if_pos hde] at hstep
      exact absurd hstep (by simp)
    · rw [if_neg hde] at hstep
      have hlitgen : ∀ (col : String) (opt : Bool),
          processLiteral sel cols acc col opt = Except.ok acc' →
          pyGet acc' k = some v := by
        intro col opt hpl
        unfold processLiteral at hpl
        by_cases hcm : col ∈ cols
        · rw [if_pos hcm] at hpl
          cases hg : pyGet sel col with
          | none =>
            rw [hg] at hpl
            exact absurd hpl (by simp)
          | some w =>
            rw [hg] at hpl
            have hacc' : acc' = pySet acc col w := (Except.ok.inj hpl).symm
            rw [hacc']
            by_cases hck : col = k
            · subst hck
              have hwv : w = v := by
                rw [hsel] at hg
                exact (Option.some.inj hg).symm
              rw [hwv, pyGet_pySet_self]
            · rw [pyGet_pySet_other acc col k w (fun hh => hck hh.symm)]
              exact hacc
        · rw [if_neg hcm] at hpl
          cases opt with
          | true =>
            have hacc' : acc' = acc := (Except.ok.inj hpl).symm
            rw [hacc']
            exact hacc
          | false => exact absurd hpl (by simp)
      by_cases hq : e.1.data.getLast? = some '?' ∧ ¬ (e.1 ∈ cols)
      · rw [if_pos hq] at hstep
        exact hlitgen _ _ hstep
      · rw [if_neg hq] at hstep
        exact hlitgen _ _ hstep

/-- A successful loop step on a literal entry whose key is a present
column binds that key to its desugared-dict value. -/
theorem step_sets (cols : List String) (sel : List (String × String))
    (acc : List (String × String)) (e : String × String)
    (acc' : List (String × String)) (k v : String)
    (hstep : processEntry cols sel acc e = Except.ok acc')
    (hre : isRegexPrefixed e.1 = false) (hek : e.1 = k) (hem : e.1 ∈ cols)
    (hsel : pyGet sel k = some v) : pyGet acc' k = some v := by
  unfold processEntry at hstep
  rw [if_neg (by simp [hre])] at hstep
  by_cases hde : e.1.data = []
  · rw [if_pos hde] at hstep
    exact absurd hstep (by simp)
  · have hcond : ¬ (e.1.data.getLast? = some '?' ∧ ¬ (e.1 ∈ cols)) :=
      fun hc => hc.2 hem
    rw [if_neg hde, if_neg hcond] at hstep
    unfold processLiteral at hstep
    rw [if_pos hem, hek, hsel] at hstep
    have hacc' : acc' = pySet acc k v := (Except.ok.inj hstep).symm
    rw [hacc', pyGet_pySet_self]

/-- In a successful run, a literal entry with a present column key ends
up bound to its desugared-dict value, whatever else the spec does. -/
theorem fold_value (cols : List String) (sel : List (String × String)) :
    ∀ (l : List (String × String)) (acc r : List (String × String))
      (k v : String),
    List.foldlM (fun acc kv => processEntry cols sel acc kv) acc l =
      Except.ok r →
    pyGet sel k = some v →
    (pyGet acc k = some v ∨
      ∃ kv ∈ l, isRegexPrefixed kv.1 = false ∧ kv.1 = k ∧ kv.1 ∈ cols) →
    pyGet r k = some v := by
  intro l
  induction l with
  | nil =>
    intro acc r k v hok hsel hd0
    simp only [List.foldlM_nil] at hok
    have heq := Except.ok.inj hok
    rcases hd0 with h | ⟨kv, hkv, _⟩
    · rw [← heq]
      exact h
    · simp at hkv
  | cons e l' ih =>
    intro acc r k v hok hsel hd0
    rw [List.foldlM_cons] at hok
    cases hstep : processEntry cols sel acc e with
    | error ε =>
      rw [hstep, except_bind_error] at hok
      exact absurd hok (by simp)
    | ok acc' =>
      rw [hstep, except_bind_ok] at hok
      rcases hd0 with hleft | ⟨kv, hkv, hkvr, hkvk, hkvm⟩
      · exact ih acc' r k v hok hsel
          (Or.inl (step_preserves cols sel acc e acc' k v hstep hsel hleft))
      · rcases List.mem_cons.mp hkv with he | hl'
        · subst he
          exact ih acc' r k v hok hsel
            (Or.inl (step_sets cols sel acc kv acc' k v hstep hkvr hkvk
              hkvm hsel))
        · exact ih acc' r k v hok hsel (Or.inr ⟨kv, hl', hkvr, hkvk, hkvm⟩)

/-- C4 (amended).  In a successful expansion (with disjoint match
sets, no optional-skipped literals and no lookup-quirk failures), the
regex-derived entries come first in REVERSE pattern-declaration order
(columns within one pattern still in table order) — each pattern's
matches are merged in FRONT of the accumulator by
`{**new_matches, **result_columns}` — followed by the literal entries
in declaration order; and on any key collision the literal entry's
rename target is what the key maps to in the result (the claimed
literal-overwrites-regex part, which holds in general). -/
theorem claim_C4_result_order :
    (∀ (cols : List String) (selected : List (String × String))
        (r : List (String × String)),
      wildcard_expansion_dict cols selected = Except.ok r →
      ((desugaredSel selected).flatMap (entryKeys cols)).Nodup →
      (∀ kv ∈ desugaredSel selected, isRegexPrefixed kv.1 = false →
        kv.1 ∈ cols) →
      r = ((desugaredSel selected).filter
            (fun kv => isRegexPrefixed kv.1)).reverse.flatMap
            (fun kv => matchedPairsD cols kv.1 kv.2) ++
          (desugaredSel selected).filter
            (fun kv => !isRegexPrefixed kv.1)) ∧
    (∀ (cols : List String) (selected : List (String × String))
        (r : List (String × String)) (kv : String × String),
      wildcard_expansion_dict cols selected = Except.ok r →
      kv ∈ desugaredSel selected → isRegexPrefixed kv.1 = false →
      kv.1 ∈ cols → pyGet r kv.1 = some kv.2) := by
  constructor
  · intro cols selected r hok hnd hlit
    have hsel := desugaredSel_nodup_keys selected
    have hlit2 : ∀ kv ∈ desugaredSel selected,
        isRegexPrefixed kv.1 = false →
        kv.1 ∈ cols ∧ pyGet (desugaredSel selected) kv.1 = some kv.2 :=
      fun kv hkv hre =>
        ⟨hlit kv hkv hre, pyGet_of_mem_nodup _ kv hkv hsel⟩
    have hres := fold_order cols (desugaredSel selected)
      (desugaredSel selected) [] [] r hok hnd (by simp) hlit2
    simpa using hres
  · intro cols selected r kv hok hkv hre hmem
    have hsel := desugaredSel_nodup_keys selected
    have hget : pyGet (desugaredSel selected) kv.1 = some kv.2 :=
      pyGet_of_mem_nodup _ kv hkv hsel
    exact fold_value cols (desugaredSel selected) (desugaredSel selected)
      [] r kv.1 kv.2 hok hget (Or.inr ⟨kv, hkv, hre, rfl, hmem⟩)

/-- C4 counterexample: with two wildcard patterns the regex-derived
entries appear in REVERSE pattern-declaration order — each pattern's
matches are merged in front of the existing results — so the claimed
pattern-declaration order `a_1, b_1` is wrong. -/
theorem claim_C4_counterexample :
    wildcard_expansion_dict ["a_1", "b_1"]
        [("a_*", "x_*"), ("b_*", "y_*")] =
      Except.ok [("b_1", "y_1"), ("a_1", "x_1")] ∧
    wildcard_expansion_dict ["a_1", "b_1"]
        [("a_*", "x_*"), ("b_*", "y_*")] ≠
      Except.ok [("a_1", "x_1"), ("b_1", "y_1")] := by
  constructor
  · rfl
  · decide

/-- Witness for C4 at columns `["a_1","b_1","c"]` and spec
`{"a_*": "x_*", "b_*": "y_*", "c": "z"}`. -/
theorem claim_C4_result_order_witness :
    wildcard_expansion_dict ["a_1", "b_1", "c"]
        [("a_*", "x_*"), ("b_*", "y_*"), ("c", "z")] =
      Except.ok [("b_1", "y_1"), ("a_1", "x_1"), ("c", "z")] ∧
    [("b_1", "y_1"), ("a_1", "x_1"), ("c", "z")] =
      ((desugaredSel [("a_*", "x_*"), ("b_*", "y_*"), ("c", "z")]).filter
          (fun kv => isRegexPrefixed kv.1)).reverse.flatMap
          (fun kv => matchedPairsD ["a_1", "b_1", "c"] kv.1 kv.2) ++
        (desugaredSel [("a_*", "x_*"), ("b_*", "y_*"), ("c", "z")]).filter
          (fun kv => !isRegexPrefixed kv.1) ∧
    pyGet [("b_1", "y_1"), ("a_1", "x_1"), ("c", "z")] "c" = some "z" := by
  refine ⟨rfl, ?_, ?_⟩
  · exact claim_C4_result_order.1 ["a_1", "b_1", "c"] _ _ rfl (by decide)
      (by decide)
  · exact claim_C4_result_order.2 ["a_1", "b_1", "c"]
      [("a_*", "x_*"), ("b_*", "y_*"), ("c", "z")] _ ("c", "z") rfl
      (by decide) (by decide) (by decide)

/-! ## Cardinality and aggregate-mode behaviour of the wrappers -/

theorem pyHasKey_pySet_mono {α : Type} (d : List (String × α))
    (k : String) (v : α) (c : String) (h : pyHasKey d c = true) :
    pyHasKey (pySet d k v) c = true := by
  by_cases hc : c = k
  · subst hc
    rw [pyHasKey, pyGet_pySet_self]
    rfl
  · rw [pyHasKey, pyGet_pySet_other d k c v hc]
    exact h

theorem zipApply_ok (df : Df) (input output : List String)
    (t : List String → List String)
    (h : ∀ c ∈ input, pyHasKey df c = true) :
    ∃ df', zipApply df input output t = Except.ok df' := by
  unfold zipApply
  have hgen : ∀ (l : List (String × String)) (d : Df),
      (∀ io ∈ l, pyHasKey d io.1 = true) →
      ∃ d', l.foldlM (fun d io => do
        let vs ← getColE d io.1
        pure (setCol d io.2 (t vs))) d = Except.ok d' := by
    intro l
    induction l with
    | nil => intro d _; exact ⟨d, rfl⟩
    | cons io l' ih =>
      intro d hall
      have h0 := hall io (List.mem_cons_self _ _)
      obtain ⟨vs, hvs⟩ : ∃ vs, pyGet d io.1 = some vs :=
        Option.isSome_iff_exists.mp h0
      have hf : (do
          let vs2 ← getColE d io.1
          pure (setCol d io.2 (t vs2)) : Except PyErr Df) =
          Except.ok (setCol d io.2 (t vs)) := by
        unfold getColE
        rw [hvs]
        rfl
      rw [List.foldlM_cons, hf, except_bind_ok]
      apply ih
      intro io2 hio2
      exact pyHasKey_pySet_mono _ _ _ _
        (hall io2 (List.mem_cons_of_mem _ hio2))
  exact hgen _ df (fun io hio => h io.1 (List.of_mem_zip hio).1)

theorem mapM_getColE (df : Df) :
    ∀ (l : List String), (∀ c ∈ l, pyHasKey df c = true) →
    l.mapM (getColE df) =
      Except.ok (l.map (fun c => (pyGet df c).getD [])) := by
  intro l
  induction l with
  | nil => intro _; rfl
  | cons c l' ih =>
    intro hall
    obtain ⟨vs, hvs⟩ : ∃ vs, pyGet df c = some vs :=
      Option.isSome_iff_exists.mp (hall c (List.mem_cons_self _ _))
    have hg : getColE df c = Except.ok vs := by
      unfold getColE
      rw [hvs]
      rfl
    rw [List.mapM_cons, hg,
      ih (fun c2 hc2 => hall c2 (List.mem_cons_of_mem _ hc2))]
    simp [except_bind_ok, hvs]

theorem aggJoinE_ok (df : Df) (input : List String) (sep : String)
    (h : ∀ c ∈ input, pyHasKey df c = true) :
    aggJoinE df input sep =
      Except.ok (aggJoin (input.map fun c => (pyGet df c).getD []) sep) := by
  unfold aggJoinE
  rw [mapM_getColE df input h]
  rfl

/-- C1 (amended).  Cardinality guard of the seven fan-out wrappers
(`extract.address`, `attributes`, `brackets`, `codes`, `properties`,
`html`, `regex`): after output defaults to input and both are coerced
to lists, the call fails — with a `ValueError` whose message is
exactly "Extract must output to a single column or equal amount of
columns as input." — iff `n_out > 1` and `n_in ≠ n_out`; it succeeds
(given the input columns exist, and a valid `find` for `brackets`)
when `n_in = n_out` or `n_out ≤ 1`.  The original claim's "fails for
every other combination" is wrong for `n_out = 0`, which the guard
lets through. -/
theorem claim_C1_cardinality_guard :
    extractLengthError = PyErr.valueError
      "Extract must output to a single column or equal amount of columns as input." ∧
    (∀ (df : Df) (input : ColSpec) (output : Option ColSpec)
        (t : List String → List String),
      input.toPyList.length ≠ (output.getD input).toPyList.length →
      (output.getD input).toPyList.length > 1 →
      extract_address df input output t = Except.error extractLengthError) ∧
    (∀ (df : Df) (input : ColSpec) (output : Option ColSpec)
        (t : List String → List String),
      (input.toPyList.length = (output.getD input).toPyList.length ∨
        (output.getD input).toPyList.length ≤ 1) →
      (∀ c ∈ input.toPyList, pyHasKey df c = true) →
      ∃ df', extract_address df input output t = Except.ok df') ∧
    (∀ (df : Df) (input : ColSpec) (output : Option ColSpec)
        (t : List String → List String),
      input.toPyList.length ≠ (output.getD input).toPyList.length →
      (output.getD input).toPyList.length > 1 →
      extract_attributes df input output t =
        Except.error extractLengthError) ∧
    (∀ (df : Df) (input : ColSpec) (output : Option ColSpec)
        (t : List String → List String),
      (input.toPyList.length = (output.getD input).toPyList.length ∨
        (output.getD input).toPyList.length ≤ 1) →
      (∀ c ∈ input.toPyList, pyHasKey df c = true) →
      ∃ df', extract_attributes df input output t = Except.ok df') ∧
    (∀ (df : Df) (input : ColSpec) (output : Option ColSpec)
        (find : ColSpec) (t : List String → List String),
      input.toPyList.length ≠ (output.getD input).toPyList.length →
      (output.getD input).toPyList.length > 1 →
      extract_brackets df input output find t =
        Except.error extractLengthError) ∧
    (∀ (df : Df) (input : ColSpec) (output : Option ColSpec)
        (find : ColSpec) (t : List String → List String),
      (input.toPyList.length = (output.getD input).toPyList.length ∨
        (output.getD input).toPyList.length ≤ 1) →
      find.toPyList.all (fun e => e ∈ bracket_types) = true →
      (∀ c ∈ input.toPyList, pyHasKey df c = true) →
      ∃ df', extract_brackets df input output find t = Except.ok df') ∧
    (∀ (df : Df) (input : ColSpec) (output : Option ColSpec)
        (t : List String → List String),
      input.toPyList.length ≠ (output.getD input).toPyList.length →
      (output.getD input).toPyList.length > 1 →
      extract_codes df input output t = Except.error extractLengthError) ∧
    (∀ (df : Df) (input : ColSpec) (output : Option ColSpec)
        (t : List String → List String),
      (input.toPyList.length = (output.getD input).toPyList.length ∨
        (output.getD input).toPyList.length ≤ 1) →
      (∀ c ∈ input.toPyList, pyHasKey df c = true) →
      ∃ df', extract_codes df input output t = Except.ok df') ∧
    (∀ (df : Df) (input : ColSpec) (output : Option ColSpec)
        (t : List String → List String),
      input.toPyList.length ≠ (output.getD input).toPyList.length →
      (output.getD input).toPyList.length > 1 →
      extract_properties df input output t =
        Except.error extractLengthError) ∧
    (∀ (df : Df) (input : ColSpec) (output : Option ColSpec)
        (t : List String → List String),
      (input.toPyList.length = (output.getD input).toPyList.length ∨
        (output.getD input).toPyList.length ≤ 1) →
      (∀ c ∈ input.toPyList, pyHasKey df c = true) →
      ∃ df', extract_properties df input output t = Except.ok df') ∧
    (∀ (df : Df) (input : ColSpec) (output : Option ColSpec)
        (t : List String → List String),
      input.toPyList.length ≠ (output.getD input).toPyList.length →
      (output.getD input).toPyList.length > 1 →
      extract_html df input output t = Except.error extractLengthError) ∧
    (∀ (df : Df) (input : ColSpec) (output : Option ColSpec)
        (t : List String → List String),
      (input.toPyList.length = (output.getD input).toPyList.length ∨
        (output.getD input).toPyList.length ≤ 1) →
      (∀ c ∈ input.toPyList, pyHasKey df c = true) →
      ∃ df', extract_html df input output t = Except.ok df') ∧
    (∀ (df : Df) (input : ColSpec) (output : Option ColSpec)
        (t : List String → List String),
      input.toPyList.length ≠ (output.getD input).toPyList.length →
      (output.getD input).toPyList.length > 1 →
      extract_regex df input output t = Except.error extractLengthError) ∧
    (∀ (df : Df) (input : ColSpec) (output : Option ColSpec)
        (t : List String → List String),
      (input.toPyList.length = (output.getD input).toPyList.length ∨
        (output.getD input).toPyList.length ≤ 1) →
      (∀ c ∈ input.toPyList, pyHasKey df c = true) →
      ∃ df', extract_regex df input output t = Except.ok df') := by
  refine ⟨rfl, ?_, ?_, ?_, ?_, ?_, ?_, ?_, ?_, ?_, ?_, ?_, ?_, ?_, ?_⟩
  · intro df input output t h1 h2
    simp only [extract_address]
    rw [if_pos ⟨h1, h2⟩]
  · intro df input output t hsucc hcols
    have hcond : ¬ (input.toPyList.length ≠
        (output.getD input).toPyList.length ∧
        (output.getD input).toPyList.length > 1) := by
      rintro ⟨hne, hgt⟩
      rcases hsucc with he | hle
      · exact hne he
      · omega
    simp only [extract_address]
    rw [if_neg hcond]
    by_cases hagg : (output.getD input).toPyList.length = 1 ∧
        input.toPyList.length > 1
    · rw [if_pos hagg, aggJoinE_ok df _ _ hcols]
      exact ⟨_, rfl⟩
    · rw [if_neg hagg]
      exact zipApply_ok df _ _ t hcols
  · intro df input output t h1 h2
    simp only [extract_attributes]
    rw [if_pos ⟨h1, h2⟩]
  · intro df input output t hsucc hcols
    have hcond : ¬ (input.toPyList.length ≠
        (output.getD input).toPyList.length ∧
        (output.getD input).toPyList.length > 1) := by
      rintro ⟨hne, hgt⟩
      rcases hsucc with he | hle
      · exact hne he
      · omega
    simp only [extract_attributes]
    rw [if_neg hcond]
    by_cases hagg : (output.getD input).toPyList.length = 1 ∧
        input.toPyList.length > 1
    · rw [if_pos hagg, aggJoinE_ok df _ _ hcols]
      exact ⟨_, rfl⟩
    · rw [if_neg hagg]
      exact zipApply_ok df _ _ t hcols
  · intro df input output find t h1 h2
    simp only [extract_brackets]
    rw [if_pos ⟨h1, h2⟩]
  · intro df input output find t hsucc hfind hcols
    have hcond : ¬ (input.toPyList.length ≠
        (output.getD input).toPyList.length ∧
        (output.getD input).toPyList.length > 1) := by
      rintro ⟨hne, hgt⟩
      rcases hsucc with he | hle
      · exact hne he
      · omega
    simp only [extract_brackets]
    rw [if_neg hcond, if_neg (by simp [hfind])]
    by_cases hagg : (output.getD input).toPyList.length = 1 ∧
        input.toPyList.length > 1
    · rw [if_pos hagg, aggJoinE_ok df _ _ hcols]
      exact ⟨_, rfl⟩
    · rw [if_neg hagg]
      exact zipApply_ok df _ _ t hcols
  · intro df input output t h1 h2
    simp only [extract_codes]
    rw [if_pos ⟨h1, h2⟩]
  · intro df input output t hsucc hcols
    have hcond : ¬ (input.toPyList.length ≠
        (output.getD input).toPyList.length ∧
        (output.getD input).toPyList.length > 1) := by
      rintro ⟨hne, hgt⟩
      rcases hsucc with he | hle
      · exact hne he
      · omega
    simp only [extract_codes]
    rw [if_neg hcond]
    by_cases hagg : (output.getD input).toPyList.length = 1 ∧
        input.toPyList.length > 1
    · rw [if_pos hagg, aggJoinE_ok df _ _ hcols]
      exact ⟨_, rfl⟩
    · rw [if_neg hagg]
      exact zipApply_ok df _ _ t hcols
  · intro df input output t h1 h2
    simp only [extract_properties]
    rw [if_pos ⟨h1, h2⟩]
  · intro df input output t hsucc hcols
    have hcond : ¬ (input.toPyList.length ≠
        (output.getD input).toPyList.length ∧
        (output.getD input).toPyList.length > 1) := by
      rintro ⟨hne, hgt⟩
      rcases hsucc with he | hle
      · exact hne he
      · omega
    simp only [extract_properties]
    rw [if_neg hcond]
    by_cases hagg : (output.getD input).toPyList.length = 1 ∧
        input.toPyList.length > 1
    · rw [if_pos hagg, aggJoinE_ok df _ _ hcols]
      exact ⟨_, rfl⟩
    · rw [if_neg hagg]
      exact zipApply_ok df _ _ t hcols
  · intro df input output t h1 h2
    simp only [extract_html]
    rw [if_pos ⟨h1, h2⟩]
  · intro df input output t hsucc hcols
    have hcond : ¬ (input.toPyList.length ≠
        (output.getD input).toPyList.length ∧
        (output.getD input).toPyList.length > 1) := by
      rintro ⟨hne, hgt⟩
      rcases hsucc with he | hle
      · exact hne he
      · omega
    simp only [extract_html]
    rw [if_neg hcond]
    exact zipApply_ok df _ _ t hcols
  · intro df input output t h1 h2
    simp only [extract_regex]
    rw [if_pos ⟨h1, h2⟩]
  · intro df input output t hsucc hcols
    have hcond : ¬ (input.toPyList.length ≠
        (output.getD input).toPyList.length ∧
        (output.getD input).toPyList.length > 1) := by
      rintro ⟨hne, hgt⟩
      rcases hsucc with he | hle
      · exact hne he
      · omega
    simp only [extract_regex]
    rw [if_neg hcond]
    exact zipApply_ok df _ _ t hcols

/-- C1 counterexample to the original claim: `n_in = 1`, `n_out = 0`
(an explicit empty output list) is neither `n_in = n_out` nor
`n_out = 1`, yet the guard does not fire and the call succeeds (the
zipped loop runs zero iterations). -/
theorem claim_C1_counterexample :
    extract_address [("a", ["v"])] (ColSpec.str "a")
        (some (ColSpec.list [])) (fun x => x) =
      Except.ok [("a", ["v"])] ∧
    (ColSpec.str "a").toPyList.length = 1 ∧
    (ColSpec.list []).toPyList.length = 0 :=
  ⟨rfl, rfl, rfl⟩

/-- Witness for C1: each guard at `n_in = 1, n_out = 2` (fails) and
each wrapper at `n_in = 2, n_out = 1` over present columns
(succeeds). -/
theorem claim_C1_cardinality_guard_witness :
    extract_address [("a", ["u"]), ("b", ["v"])] (ColSpec.str "a")
      (some (ColSpec.list ["x", "y"])) (fun x => x) =
      Except.error extractLengthError ∧
    (∃ df', extract_address [("a", ["u"]), ("b", ["v"])]
      (ColSpec.list ["a", "b"]) (some (ColSpec.str "x")) (fun x => x) =
      Except.ok df') ∧
    extract_attributes [("a", ["u"]), ("b", ["v"])] (ColSpec.str "a")
      (some (ColSpec.list ["x", "y"])) (fun x => x) =
      Except.error extractLengthError ∧
    (∃ df', extract_attributes [("a", ["u"]), ("b", ["v"])]
      (ColSpec.list ["a", "b"]) (some (ColSpec.str "x")) (fun x => x) =
      Except.ok df') ∧
    extract_brackets [("a", ["u"]), ("b", ["v"])] (ColSpec.str "a")
      (some (ColSpec.list ["x", "y"])) (ColSpec.str "all") (fun x => x) =
      Except.error extractLengthError ∧
    (∃ df', extract_brackets [("a", ["u"]), ("b", ["v"])]
      (ColSpec.list ["a", "b"]) (some (ColSpec.str "x"))
      (ColSpec.str "all") (fun x => x) = Except.ok df') ∧
    extract_codes [("a", ["u"]), ("b", ["v"])] (ColSpec.str "a")
      (some (ColSpec.list ["x", "y"])) (fun x => x) =
      Except.error extractLengthError ∧
    (∃ df', extract_codes [("a", ["u"]), ("b", ["v"])]
      (ColSpec.list ["a", "b"]) (some (ColSpec.str "x")) (fun x => x) =
      Except.ok df') ∧
    extract_properties [("a", ["u"]), ("b", ["v"])] (ColSpec.str "a")
      (some (ColSpec.list ["x", "y"])) (fun x => x) =
      Except.error extractLengthError ∧
    (∃ df', extract_properties [("a", ["u"]), ("b", ["v"])]
      (ColSpec.list ["a", "b"]) (some (ColSpec.str "x")) (fun x => x) =
      Except.ok df') ∧
    extract_html [("a", ["u"]), ("b", ["v"])] (ColSpec.str "a")
      (some (ColSpec.list ["x", "y"])) (fun x => x) =
      Except.error extractLengthError ∧
    (∃ df', extract_html [("a", ["u"]), ("b", ["v"])]
      (ColSpec.list ["a", "b"]) (some (ColSpec.str "x")) (fun x => x) =
      Except.ok df') ∧
    extract_regex [("a", ["u"]), ("b", ["v"])] (ColSpec.str "a")
      (some (ColSpec.list ["x", "y"])) (fun x => x) =
      Except.error extractLengthError ∧
    (∃ df', extract_regex [("a", ["u"]), ("b", ["v"])]
      (ColSpec.list ["a", "b"]) (some (ColSpec.str "x")) (fun x => x) =
      Except.ok df') :=
  ⟨claim_C1_cardinality_guard.2.1 _ _ _ _ (by decide) (by decide),
    claim_C1_cardinality_guard.2.2.1 _ _ _ _ (by decide) (by decide),
    claim_C1_cardinality_guard.2.2.2.1 _ _ _ _ (by decide) (by decide),
    claim_C1_cardinality_guard.2.2.2.2.1 _ _ _ _ (by decide) (by decide),
    claim_C1_cardinality_guard.2.2.2.2.2.1 _ _ _ _ _ (by decide)
      (by decide),
    claim_C1_cardinality_guard.2.2.2.2.2.2.1 _ _ _ _ _ (by decide)
      (by decide) (by decide),
    claim_C1_cardinality_guard.2.2.2.2.2.2.2.1 _ _ _ _ (by decide)
      (by decide),
    claim_C1_cardinality_guard.2.2.2.2.2.2.2.2.1 _ _ _ _ (by decide)
      (by decide),
    claim_C1_cardinality_guard.2.2.2.2.2.2.2.2.2.1 _ _ _ _ (by decide)
      (by decide),
    claim_C1_cardinality_guard.2.2.2.2.2.2.2.2.2.2.1 _ _ _ _ (by decide)
      (by decide),
    claim_C1_cardinality_guard.2.2.2.2.2.2.2.2.2.2.2.1 _ _ _ _
      (by decide) (by decide),
    claim_C1_cardinality_guard.2.2.2.2.2.2.2.2.2.2.2.2.1 _ _ _ _
      (by decide) (by decide),
    claim_C1_cardinality_guard.2.2.2.2.2.2.2.2.2.2.2.2.2.1 _ _ _ _
      (by decide) (by decide),
    claim_C1_cardinality_guard.2.2.2.2.2.2.2.2.2.2.2.2.2.2 _ _ _ _
      (by decide) (by decide)⟩

/-- C7 (confirmed).  In aggregate mode (`n_out = 1`, `n_in > 1`) each
fan-out transform joins the input columns' string values row-wise with
a fixed separator — a single space for `extract.address`,
`extract.brackets` and `extract.properties`, and `" AAA "` for
`extract.attributes` and `extract.codes` — invokes the transform once
on the joined column, and assigns the whole result to the single
output column.  The last two conjuncts display the row-wise joining on
a concrete two-column, two-row table. -/
theorem claim_C7_aggregate_separator :
    (∀ (df : Df) (input : ColSpec) (output : Option ColSpec)
        (t : List String → List String),
      (output.getD input).toPyList.length = 1 →
      input.toPyList.length > 1 →
      (∀ c ∈ input.toPyList, pyHasKey df c = true) →
      extract_address df input output t =
        Except.ok (setCol df ((output.getD input).toPyList.headD "")
          (t (aggJoin (input.toPyList.map fun c => (pyGet df c).getD [])
            " ")))) ∧
    (∀ (df : Df) (input : ColSpec) (output : Option ColSpec)
        (t : List String → List String),
      (output.getD input).toPyList.length = 1 →
      input.toPyList.length > 1 →
      (∀ c ∈ input.toPyList, pyHasKey df c = true) →
      extract_attributes df input output t =
        Except.ok (setCol df ((output.getD input).toPyList.headD "")
          (t (aggJoin (input.toPyList.map fun c => (pyGet df c).getD [])
            " AAA ")))) ∧
    (∀ (df : Df) (input : ColSpec) (output : Option ColSpec)
        (find : ColSpec) (t : List String → List String),
      (output.getD input).toPyList.length = 1 →
      input.toPyList.length > 1 →
      find.toPyList.all (fun e => e ∈ bracket_types) = true →
      (∀ c ∈ input.toPyList, pyHasKey df c = true) →
      extract_brackets df input output find t =
        Except.ok (setCol df ((output.getD input).toPyList.headD "")
          (t (aggJoin (input.toPyList.map fun c => (pyGet df c).getD [])
            " ")))) ∧
    (∀ (df : Df) (input : ColSpec) (output : Option ColSpec)
        (t : List String → List String),
      (output.getD input).toPyList.length = 1 →
      input.toPyList.length > 1 →
      (∀ c ∈ input.toPyList, pyHasKey df c = true) →
      extract_codes df input output t =
        Except.ok (setCol df ((output.getD input).toPyList.headD "")
          (t (aggJoin (input.toPyList.map fun c => (pyGet df c).getD [])
            " AAA ")))) ∧
    (∀ (df : Df) (input : ColSpec) (output : Option ColSpec)
        (t : List String → List String),
      (output.getD input).toPyList.length = 1 →
      input.toPyList.length > 1 →
      (∀ c ∈ input.toPyList, pyHasKey df c = true) →
      extract_properties df input output t =
        Except.ok (setCol df ((output.getD input).toPyList.headD "")
          (t (aggJoin (input.toPyList.map fun c => (pyGet df c).getD [])
            " ")))) ∧
    aggJoin [["hammer", "nail"], ["5kg", "1kg"]] " " =
      ["hammer 5kg", "nail 1kg"] ∧
    aggJoin [["hammer", "nail"], ["5kg", "1kg"]] " AAA " =
      ["hammer AAA 5kg", "nail AAA 1kg"] := by
  have hguard : ∀ (input : ColSpec) (output : Option ColSpec),
      (output.getD input).toPyList.length = 1 →
      ¬ (input.toPyList.length ≠ (output.getD input).toPyList.length ∧
        (output.getD input).toPyList.length > 1) := by
    rintro input output hout ⟨_, hgt⟩
    omega
  refine ⟨?_, ?_, ?_, ?_, ?_, by decide, by decide⟩
  · intro df input output t hout hin hcols
    simp only [extract_address]
    rw [if_neg (hguard input output hout), if_pos ⟨hout, hin⟩,
      aggJoinE_ok df _ _ hcols]
    rfl
  · intro df input output t hout hin hcols
    simp only [extract_attributes]
    rw [if_neg (hguard input output hout), if_pos ⟨hout, hin⟩,
      aggJoinE_ok df _ _ hcols]
    rfl
  · intro df input output find t hout hin hfind hcols
    simp only [extract_brackets]
    rw [if_neg (hguard input output hout), if_neg (by simp [hfind]),
      if_pos ⟨hout, hin⟩, aggJoinE_ok df _ _ hcols]
    rfl
  · intro df input output t hout hin hcols
    simp only [extract_codes]
    rw [if_neg (hguard input output hout), if_pos ⟨hout, hin⟩,
      aggJoinE_ok df _ _ hcols]
    rfl
  · intro df input output t hout hin hcols
    simp only [extract_properties]
    rw [if_neg (hguard input output hout), if_pos ⟨hout, hin⟩,
      aggJoinE_ok df _ _ hcols]
    rfl

/-- Witness for C7 at a two-column table with `input=["a","b"]`,
`output="o"`. -/
theorem claim_C7_aggregate_separator_witness :
    extract_address [("a", ["u"]), ("b", ["v"])] (ColSpec.list ["a", "b"])
      (some (ColSpec.str "o")) (fun x => x) =
      Except.ok (setCol [("a", ["u"]), ("b", ["v"])] "o"
        (aggJoin [["u"], ["v"]] " ")) ∧
    extract_attributes [("a", ["u"]), ("b", ["v"])]
      (ColSpec.list ["a", "b"]) (some (ColSpec.str "o")) (fun x => x) =
      Except.ok (setCol [("a", ["u"]), ("b", ["v"])] "o"
        (aggJoin [["u"], ["v"]] " AAA ")) ∧
    extract_brackets [("a", ["u"]), ("b", ["v"])] (ColSpec.list ["a", "b"])
      (some (ColSpec.str "o")) (ColSpec.str "all") (fun x => x) =
      Except.ok (setCol [("a", ["u"]), ("b", ["v"])] "o"
        (aggJoin [["u"], ["v"]] " ")) ∧
    extract_codes [("a", ["u"]), ("b", ["v"])] (ColSpec.list ["a", "b"])
      (some (ColSpec.str "o")) (fun x => x) =
      Except.ok (setCol [("a", ["u"]), ("b", ["v"])] "o"
        (aggJoin [["u"], ["v"]] " AAA ")) ∧
    extract_properties [("a", ["u"]), ("b", ["v"])]
      (ColSpec.list ["a", "b"]) (some (ColSpec.str "o")) (fun x => x) =
      Except.ok (setCol [("a", ["u"]), ("b", ["v"])] "o"
        (aggJoin [["u"], ["v"]] " ")) :=
  ⟨claim_C7_aggregate_separator.1 _ _ _ _ (by decide) (by decide)
      (by decide),
    claim_C7_aggregate_separator.2.1 _ _ _ _ (by decide) (by decide)
      (by decide),
    claim_C7_aggregate_separator.2.2.1 _ _ _ _ _ (by decide) (by decide)
      (by decide) (by decide),
    claim_C7_aggregate_separator.2.2.2.1 _ _ _ _ (by decide) (by decide)
      (by decide),
    claim_C7_aggregate_separator.2.2.2.2.1 _ _ _ _ (by decide)
      (by decide) (by decide)⟩

/-- C6 (amended).  `split.tokenize` does NOT follow the fan-out
aggregate contract: it requires `len(input) == len(output)` and raises
`ValueError("The list of inputs and outputs must be the same length
for split.tokenize")` on every mismatch — including `n_in > 1` with
`n_out = 1`, which the extract wrappers would run in aggregate
mode. -/
theorem claim_C6_tokenize_equal_lengths :
    ∀ (df : Df) (input : ColSpec) (output : Option ColSpec)
      (method : String) (fns : PyObj) (t : List String → List String),
    input.toPyList.length ≠ (output.getD input).toPyList.length →
    split_tokenize df input output method fns t =
      Except.error (PyErr.valueError
        "The list of inputs and outputs must be the same length for split.tokenize") := by
  intro df input output method fns t hne
  simp only [split_tokenize]
  rw [if_pos hne]

/-- C6 counterexample to the original claim: two input columns with a
single output column — a valid aggregate combination for every extract
wrapper — is rejected by `split.tokenize`. -/
theorem claim_C6_counterexample :
    split_tokenize [("a", ["u"]), ("b", ["v"])] (ColSpec.list ["a", "b"])
        (some (ColSpec.str "c")) "space" PyObj.pynone (fun x => x) =
      Except.error (PyErr.valueError
        "The list of inputs and outputs must be the same length for split.tokenize") ∧
    (ColSpec.list ["a", "b"]).toPyList.length = 2 ∧
    (ColSpec.str "c").toPyList.length = 1 :=
  ⟨rfl, rfl, rfl⟩

/-- Witness for C6 at `input=["a","b"]`, `output="c"`. -/
theorem claim_C6_tokenize_equal_lengths_witness :
    split_tokenize [("a", ["u"]), ("b", ["v"])] (ColSpec.list ["a", "b"])
        (some (ColSpec.str "c")) "space" PyObj.pynone (fun x => x) =
      Except.error (PyErr.valueError
        "The list of inputs and outputs must be the same length for split.tokenize") :=
  claim_C6_tokenize_equal_lengths _ _ _ _ _ _ (by decide)

/-! ## C8: `get_nested_function` -/

theorem pySplitDotAux_ne_nil (cs : List Char) : pySplitDotAux cs ≠ [] := by
  cases cs with
  | nil => simp [pySplitDotAux]
  | cons c cs =>
    by_cases hc : c = '.'
    · simp [pySplitDotAux, hc]
    · simp only [pySplitDotAux, if_neg hc]
      cases pySplitDotAux cs <;> simp

theorem pySplitDotAux_cons_dot (cs : List Char) :
    pySplitDotAux ('.' :: cs) = [] :: pySplitDotAux cs := by
  simp [pySplitDotAux]

theorem pySplitDotAux_cons_ne (c : Char) (hc : ¬ c = '.') (cs : List Char) :
    pySplitDotAux (c :: cs) =
      match pySplitDotAux cs with
      | [] => [[c]]
      | s :: rest => (c :: s) :: rest := by
  simp [pySplitDotAux, hc]

/-- Splitting `pre ++ '.' :: l` on dots, where `pre` is dot-free,
yields `pre` followed by the split of `l`. -/
theorem pySplitDot_append_dot (l : List Char) :
    ∀ (pre : List Char), (∀ c ∈ pre, ¬ c = '.') →
    pySplitDotAux (pre ++ '.' :: l) = pre :: pySplitDotAux l := by
  intro pre
  induction pre with
  | nil => intro _; exact pySplitDotAux_cons_dot l
  | cons c cs ih =>
    intro hall
    have hc := hall c (List.mem_cons_self _ _)
    rw [List.cons_append, pySplitDotAux_cons_ne c hc,
      ih (fun c2 h2 => hall c2 (List.mem_cons_of_mem _ h2))]

theorem dotSegments_custom (rest : String)
    (hstrip : pyStripChars ("custom." ++ rest).data =
      ("custom." ++ rest).data) :
    dotSegments ⟨pyStripChars ("custom." ++ rest).data⟩ =
      "custom" :: dotSegments rest := by
  rw [hstrip]
  show dotSegments ("custom." ++ rest) = _
  unfold dotSegments
  have hd : ("custom." ++ rest).data =
      "custom".data ++ ('.' :: rest.data) := rfl
  rw [hd, pySplitDot_append_dot rest.data "custom".data (by decide)]
  rfl

theorem dotSegments_ne_nil (s : String) : dotSegments s ≠ [] := by
  unfold dotSegments
  simp [pySplitDotAux_ne_nil]

/-- The traversal loop is dotted-path lookup, failing with the exact
`Function ... not recognized` message when any segment is missing. -/
theorem traverseNS_eq_pathLookup (fn : String) :
    ∀ (segs : List String) (obj : PyObj),
    traverseNS fn obj segs =
      match pathLookup obj segs with
      | some v => Except.ok v
      | none =>
        Except.error (PyErr.valueError (functionNotRecognizedMsg fn)) := by
  intro segs
  induction segs with
  | nil => intro obj; rfl
  | cons n rest ih =>
    intro obj
    show (match pyObjChild obj n with
      | some o2 => traverseNS fn o2 rest
      | none =>
        Except.error (PyErr.valueError (functionNotRecognizedMsg fn))) = _
    cases h : pyObjChild obj n with
    | some o2 =>
      have hpl : pathLookup obj (n :: rest) = pathLookup o2 rest := by
        show (match pyObjChild obj n with
          | some o2 => pathLookup o2 rest
          | none => none) = _
        rw [h]
      rw [hpl]
      exact ih o2
    | none =>
      have hpl : pathLookup obj (n :: rest) = none := by
        show (match pyObjChild obj n with
          | some o2 => pathLookup o2 rest
          | none => none) = _
        rw [h]
      rw [hpl]

/-- C8 (confirmed).  The Function Resolver: (1) with neither root
provided it fails with the generic `No functions provided` error
before any traversal; (2) a `custom.`-prefixed name strips the prefix
and resolves the remaining dot segments strictly against the custom
root — dict keys or object attributes per node, the stock root and the
default trailing segment both ignored — failing with
`Function <name> not recognized` at the first missing segment;
(3) a non-custom name has the (non-empty) default trailing segment
appended before traversal of the builtin root. -/
theorem claim_C8_function_resolver :
    (∀ (fn : String) (d : Option String),
      get_nested_function fn none none d =
        Except.error (PyErr.valueError "No functions provided")) ∧
    (∀ (rest : String) (stock : Option PyObj) (c : PyObj)
        (d : Option String),
      pyStripChars ("custom." ++ rest).data = ("custom." ++ rest).data →
      get_nested_function ("custom." ++ rest) stock (some c) d =
        (match pathLookup c (dotSegments rest) with
         | some v => Except.ok v
         | none => Except.error (PyErr.valueError
             (functionNotRecognizedMsg ("custom." ++ rest))))) ∧
    (∀ (fn : String) (stock : Option PyObj) (custom : Option PyObj)
        (dd : String),
      custom.isSome = true ∨ stock.isSome = true →
      pyStripChars fn.data = fn.data →
      (dotSegments fn).headD "" ≠ "custom" →
      dd ≠ "" →
      get_nested_function fn stock custom (some dd) =
        (match pathLookup (objOf stock) (dotSegments fn ++ [dd]) with
         | some v => Except.ok v
         | none => Except.error (PyErr.valueError
             (functionNotRecognizedMsg fn)))) := by
  refine ⟨?_, ?_, ?_⟩
  · intro fn d
    simp [get_nested_function]
  · intro rest stock c d hstrip
    have hsegs := dotSegments_custom rest hstrip
    have htail : dotSegments rest ≠ [] := dotSegments_ne_nil rest
    simp only [get_nested_function]
    rw [if_neg (by simp), hsegs]
    rw [if_pos (by simp)]
    have hlen : ¬ (("custom" :: dotSegments rest).length = 1) := by
      simp only [List.length_cons]
      cases hdt : dotSegments rest with
      | nil => exact absurd hdt htail
      | cons s r => simp
    rw [if_neg hlen]
    show traverseNS ("custom." ++ rest) c (dotSegments rest) = _
    rw [traverseNS_eq_pathLookup]
  · intro fn stock custom dd hpresent hstrip hhead hdd
    have hsegs : dotSegments ⟨pyStripChars fn.data⟩ = dotSegments fn := by
      rw [hstrip]
    simp only [get_nested_function]
    rw [if_neg (by
      rcases hpresent with h | h <;> rintro ⟨h1, h2⟩
      · rw [Option.isNone_iff_eq_none.mp h1] at h
        simp at h
      · rw [Option.isNone_iff_eq_none.mp h2] at h
        simp at h), hsegs, if_neg hhead]
    rw [if_neg hdd]
    rw [traverseNS_eq_pathLookup]

/-- Witness for C8: `custom.a.b` against a two-level custom dict, and
`mod.f` with default segment `d` against an attribute-tree stock
root. -/
theorem claim_C8_function_resolver_witness :
    get_nested_function "x" none none none =
      Except.error (PyErr.valueError "No functions provided") ∧
    get_nested_function "custom.a.b" (some (PyObj.attrObj []))
      (some (PyObj.pydict [("a", PyObj.pydict [("b", PyObj.callable 0)])]))
      (some "d") = Except.ok (PyObj.callable 0) ∧
    get_nested_function "mod.f"
      (some (PyObj.attrObj [("mod",
        PyObj.attrObj [("f", PyObj.attrObj [("d", PyObj.callable 1)])])]))
      none (some "d") = Except.ok (PyObj.callable 1) ∧
    get_nested_function "custom.missing" (some (PyObj.attrObj []))
      (some (PyObj.pydict [("a", PyObj.callable 0)])) none =
      Except.error (PyErr.valueError
        (functionNotRecognizedMsg "custom.missing")) :=
  ⟨claim_C8_function_resolver.1 "x" none,
    (claim_C8_function_resolver.2.1 "a.b" (some (PyObj.attrObj []))
      (PyObj.pydict [("a", PyObj.pydict [("b", PyObj.callable 0)])])
      (some "d") (by decide)).trans rfl,
    (claim_C8_function_resolver.2.2 "mod.f"
      (some (PyObj.attrObj [("mod",
        PyObj.attrObj [("f", PyObj.attrObj [("d", PyObj.callable 1)])])]))
      none "d" (Or.inr rfl) (by decide) (by decide) (by decide)).trans rfl,
    (claim_C8_function_resolver.2.1 "missing" (some (PyObj.attrObj []))
      (PyObj.pydict [("a", PyObj.callable 0)]) none (by decide)).trans rfl⟩

theorem le_foldl_max (l : List Nat) : ∀ (acc : Nat), acc ≤ l.foldl max acc := by
  induction l with
  | nil => intro acc; exact Nat.le_refl acc
  | cons x l ih =>
    intro acc
    rw [List.foldl_cons]
    exact Nat.le_trans (Nat.le_max_left acc x) (ih (max acc x))

theorem mem_le_foldl_max (l : List Nat) :
    ∀ (acc a : Nat), a ∈ l → a ≤ l.foldl max acc := by
  induction l with
  | nil => intro _ a h; simp at h
  | cons x l ih =>
    intro acc a h
    rw [List.foldl_cons]
    rcases List.mem_cons.mp h with h | h
    · subst h
      exact Nat.le_trans (Nat.le_max_right acc a) (le_foldl_max l _)
    · exact ih _ a h

theorem length_le_listLenMax (rows : List (List PyVal)) (x : List PyVal)
    (hx : x ∈ rows) : x.length ≤ listLenMax rows :=
  mem_le_foldl_max _ 0 _ (List.mem_map_of_mem List.length hx)

/-- Every padded row has exactly the length of the longest row. -/
theorem padRows_row_length (rows : List (List PyVal)) (x : List PyVal)
    (hx : x ∈ rows) :
    (x ++ List.replicate (listLenMax rows - x.length)
      (PyVal.s "")).length = listLenMax rows := by
  have hle := length_le_listLenMax rows x hx
  simp only [List.length_append, List.length_replicate]
  omega

theorem mapM_parseListCell (rows : List (List PyVal)) :
    (rows.map PyVal.l).mapM parseListCell = Except.ok rows := by
  induction rows with
  | nil => rfl
  | cons r rows ih =>
    rw [List.map_cons, List.mapM_cons]
    show (Except.ok r >>= fun x =>
      (rows.map PyVal.l).mapM parseListCell >>= fun xs => pure (x :: xs)) = _
    rw [except_bind_ok, ih, except_bind_ok]
    rfl

/-- After the row-wise multi-column assignment, every assigned header
holds a column with one cell per row. -/
theorem setCols_lookup (rowsP : List (List PyVal)) :
    ∀ (l : List (Nat × String)) (d : DfV) (h : String),
    (h ∈ l.map Prod.snd ∨
      ∃ col, pyGet d h = some col ∧ col.length = rowsP.length) →
    ∃ col, pyGet (l.foldl (fun d ji =>
        pySet d ji.2 (rowsP.map (fun r => r.getD ji.1 (PyVal.s "")))) d) h =
      some col ∧ col.length = rowsP.length := by
  intro l
  induction l with
  | nil =>
    intro d h hd
    rcases hd with h1 | h1
    · simp at h1
    · exact h1
  | cons ji l' ih =>
    intro d h hd
    rw [List.foldl_cons]
    apply ih
    by_cases hh : h = ji.2
    · subst hh
      exact Or.inr ⟨_, pyGet_pySet_self _ _ _, by simp⟩
    · rcases hd with h1 | h1
      · rw [List.map_cons] at h1
        rcases List.mem_cons.mp h1 with h2 | h2
        · exact absurd h2 hh
        · exact Or.inl h2
      · obtain ⟨col, hcol, hlen⟩ := h1
        exact Or.inr ⟨col, by
          rw [pyGet_pySet_other d ji.2 h _ hh]
          exact hcol, hlen⟩

/-- C10 (confirmed).  `split.list`: (a) on a zero-row input column the
dataframe is returned unchanged with no error; (b) every row's list is
padded on the RIGHT with empty-string cells up to the longest list's
length; (c) in the wildcard-output case the call succeeds, generates
exactly `max_len` output columns, and every generated column holds a
value for every row. -/
theorem claim_C10_split_list_padding :
    (∀ (df : DfV) (input : String) (output : ColSpec),
      pyGet df input = some [] →
      split_list df input output = Except.ok df) ∧
    (∀ (rows : List (List PyVal)) (x : List PyVal), x ∈ rows →
      (x ++ List.replicate (listLenMax rows - x.length)
        (PyVal.s "")).length = listLenMax rows) ∧
    (∀ (df : DfV) (input : String) (output : ColSpec)
        (rows : List (List PyVal)),
      pyGet df input = some (rows.map PyVal.l) → rows ≠ [] →
      wildcardOut output = true →
      split_list df input output =
        Except.ok (setColsRowwise df (splitListHeaders output rows)
          (padRows rows)) ∧
      (splitListHeaders output rows).length = listLenMax rows ∧
      ∀ h ∈ splitListHeaders output rows,
        ∃ col, pyGet (setColsRowwise df (splitListHeaders output rows)
          (padRows rows)) h = some col ∧ col.length = rows.length) := by
  refine ⟨?_, ?_, ?_⟩
  · intro df input output hget
    unfold split_list
    rw [hget]
    rfl
  · exact padRows_row_length
  · intro df input output rows hget hne hwild
    have hlen0 : ¬ (rows.length = 0) := by
      cases rows with
      | nil => exact absurd rfl hne
      | cons r rest => simp
    have hsplit : split_list df input output =
        Except.ok (setColsRowwise df (splitListHeaders output rows)
          (padRows rows)) := by
      unfold split_list
      rw [hget]
      simp only [mapM_parseListCell]
      rw [if_neg hlen0, if_pos hwild]
      rfl
    refine ⟨hsplit, ?_, ?_⟩
    · unfold splitListHeaders
      rw [List.length_map, List.length_range]
      cases rows with
      | nil => exact absurd rfl hne
      | cons r0 rrest =>
        show (r0 ++ List.replicate (listLenMax (r0 :: rrest) - r0.length)
          (PyVal.s "")).length = _
        exact padRows_row_length (r0 :: rrest) r0
          (List.mem_cons_self _ _)
    · intro h hh
      have hmain := setCols_lookup (padRows rows)
        ((splitListHeaders output rows).enum) df h
        (Or.inl (by rw [List.enum_map_snd]; exact hh))
      obtain ⟨col, hcol, hlen⟩ := hmain
      refine ⟨col, hcol, ?_⟩
      rwa [show (padRows rows).length = rows.length from by
        simp [padRows]] at hlen

/-- Witness for C10: zero-row column; padding of `[["a","b"],["c"]]`;
the wildcard case on a two-row column with rows of lengths 2 and 1. -/
theorem claim_C10_split_list_padding_witness :
    split_list [("c1", [])] "c1" (ColSpec.str "o*") =
      Except.ok [("c1", [])] ∧
    ([PyVal.s "c"] ++ List.replicate
      (listLenMax [[PyVal.s "a", PyVal.s "b"], [PyVal.s "c"]] - 1)
      (PyVal.s "")).length =
      listLenMax [[PyVal.s "a", PyVal.s "b"], [PyVal.s "c"]] ∧
    split_list
      [("c1", [PyVal.l [PyVal.s "a", PyVal.s "b"], PyVal.l [PyVal.s "c"]])]
      "c1" (ColSpec.str "o*") =
      Except.ok (setColsRowwise
        [("c1", [PyVal.l [PyVal.s "a", PyVal.s "b"], PyVal.l [PyVal.s "c"]])]
        (splitListHeaders (ColSpec.str "o*")
          [[PyVal.s "a", PyVal.s "b"], [PyVal.s "c"]])
        (padRows [[PyVal.s "a", PyVal.s "b"], [PyVal.s "c"]])) ∧
    (splitListHeaders (ColSpec.str "o*")
      [[PyVal.s "a", PyVal.s "b"], [PyVal.s "c"]]).length =
      listLenMax [[PyVal.s "a", PyVal.s "b"], [PyVal.s "c"]] :=
  ⟨claim_C10_split_list_padding.1 [("c1", [])] "c1" (ColSpec.str "o*") rfl,
    claim_C10_split_list_padding.2.1
      [[PyVal.s "a", PyVal.s "b"], [PyVal.s "c"]] [PyVal.s "c"]
      (by simp),
    (claim_C10_split_list_padding.2.2
      [("c1", [PyVal.l [PyVal.s "a", PyVal.s "b"], PyVal.l [PyVal.s "c"]])]
      "c1" (ColSpec.str "o*")
      [[PyVal.s "a", PyVal.s "b"], [PyVal.s "c"]] rfl
      (by simp) (by decide)).1,
    ((claim_C10_split_list_padding.2.2
      [("c1", [PyVal.l [PyVal.s "a", PyVal.s "b"], PyVal.l [PyVal.s "c"]])]
      "c1" (ColSpec.str "o*")
      [[PyVal.s "a", PyVal.s "b"], [PyVal.s "c"]] rfl
      (by simp) (by decide)).2).1⟩

end Wrangles
